import Mathlib

/-!
Verification development for the unified query & collection abstraction layer
(`cms-dynamic-database`).  The Firestore-backed implementation
(`src/services/firebase.ts`, `src/services/collection.service.ts`, and the
`DocumentService` variant) and the MongoDB-backed implementation
(`src/services/mongodb.ts`) are shallowly embedded as pure functions over
explicit store states.  Documents are JavaScript objects, modelled as
insertion-ordered association lists with the overwrite-on-spread semantics of
the object spread operator.  Wall-clock readings (`new Date()`,
`Date.getTime()`) are passed in explicitly as natural-number millisecond
values; backend-generated document ids are passed in as explicit id supplies.
Backend write rejection (quota, rule failures, ...) is modelled by a
caller-supplied predicate on the written document, and the differing commit
semantics of the two backends are modelled from their documented behaviour:
a Firestore `writeBatch.commit` applies all of its operations or none of
them, while a MongoDB ordered `insertMany` inserts sequentially and stops at
the first rejected document, keeping the earlier inserts.
-/

/-- Dynamic field values stored in documents: strings, numbers, booleans,
timestamps (milliseconds) and null, mirroring the untyped field bag the
source passes through to the backends. -/
inductive Value where
  | vstr (s : String)
  | vnum (n : Int)
  | vbool (b : Bool)
  | vtime (t : Nat)
  | vnull
deriving DecidableEq

/-- A JavaScript object: an insertion-ordered list of key/value pairs with
unique keys (uniqueness is maintained by `setKey`). -/
abbrev Obj := List (String × Value)

/-- Assignment in a string-keyed association map: overwrite the first
binding in place when the key is present, append otherwise.  This is the
shared shape of JavaScript object assignment, `Map.set`, and the model's
store updates. -/
def assocSet {α : Type} : List (String × α) → String → α → List (String × α)
  | [], k, v => [(k, v)]
  | (k2, v2) :: rest, k, v =>
      if k2 = k then (k, v) :: rest else (k2, v2) :: assocSet rest k v

/-- Lookup in a string-keyed association map (first binding wins). -/
def assocGet {α : Type} (l : List (String × α)) (k : String) : Option α :=
  (l.find? (fun p => decide (p.1 = k))).map Prod.snd

/-- Assigning to a key of a JavaScript object: overwrite in place when the
key is present, append otherwise. -/
def setKey (o : Obj) (k : String) (v : Value) : Obj := assocSet o k v

/-- The object spread `\x7b...a, ...b\x7d`: fold `b`'s entries over `a`,
later entries overwriting earlier ones. -/
def mergeObj (a b : Obj) : Obj :=
  b.foldl (fun acc p => setKey acc p.1 p.2) a

/-- Reading a key of an object (`o.k`); `none` models `undefined`. -/
def getKey (o : Obj) (k : String) : Option Value := assocGet o k

/-- Reading a key expected to hold a string, with `""` for anything else. -/
def getStrD (o : Obj) (k : String) : String :=
  match getKey o k with
  | some (.vstr s) => s
  | _ => ""

/-- Destructuring a key away, as in `const \x7b fid, ...rest \x7d = data`. -/
def removeKey (o : Obj) (k : String) : Obj :=
  o.filter (fun p => decide (p.1 ≠ k))

/-- JavaScript truthiness of a field value (`""`, `0`, `false`, `null` are
falsy; `Date` objects are always truthy). -/
def truthy : Value → Bool
  | .vstr s => decide (s ≠ "")
  | .vnum n => decide (n ≠ 0)
  | .vbool b => b
  | .vtime _ => true
  | .vnull => false

/-- The JavaScript `a || b` fallback on a possibly-undefined value. -/
def jsOr (a : Option Value) (b : Value) : Value :=
  match a with
  | some v => if truthy v then v else b
  | none => b

/-- ASCII lower-casing of one character, as `String.prototype.toLowerCase`
acts on the identifiers this repository handles. -/
def lowerChar (c : Char) : Char :=
  if 'A' ≤ c && c ≤ 'Z' then Char.ofNat (c.toNat + 32) else c

/-- The `toLowerCase()` normalization used on collection names. -/
def jsLower (s : String) : String := ⟨s.data.map lowerChar⟩

/-- Whitespace characters removed by `String.prototype.trim`. -/
def wsChar (c : Char) : Bool :=
  c = ' ' || c = '\t' || c = '\n' || c = '\r'

/-- The `trim()` normalization used on collection names. -/
def jsTrim (s : String) : String :=
  ⟨((s.data.dropWhile wsChar).reverse.dropWhile wsChar).reverse⟩

/-- Lexicographic comparison of character lists, standing in for the
backend-native string ordering used by range filters. -/
def charListLt : List Char → List Char → Bool
  | [], [] => false
  | [], _ :: _ => true
  | _ :: _, [] => false
  | a :: as, b :: bs => a < b || (a = b && charListLt as bs)

/-- String comparison used when translating range filters. -/
def strLtB (a b : String) : Bool := charListLt a.data b.data

/-- A Firestore document: its backend-native document id together with its
data object. -/
abbrev FDoc := String × Obj

/-- A Firestore database: a list of collection paths, each holding its
documents in backend iteration order. -/
abbrev Store := List (String × List FDoc)

/-- The documents of one collection path (empty when the path is unused). -/
def getColl (s : Store) (cid : String) : List FDoc :=
  (assocGet s cid).getD []

/-- Replacing the contents of one collection path. -/
def setColl (s : Store) (cid : String) (docs : List FDoc) : Store :=
  assocSet s cid docs

/-- Writing a document into a collection: overwrite in place when the id is
present, append otherwise (the effect of `setDoc`, and of a committed
`batch.set`). -/
def upsertDoc (l : List FDoc) (i : String) (d : Obj) : List FDoc :=
  assocSet l i d

/-- `setDoc(doc(db, cid, i), d)` on the store. -/
def setDocIn (s : Store) (cid i : String) (d : Obj) : Store :=
  setColl s cid (upsertDoc (getColl s cid) i d)

/-- `getDoc(doc(db, cid, i))`: `none` when the document does not exist. -/
def getDocIn (s : Store) (cid i : String) : Option Obj :=
  assocGet (getColl s cid) i

/-- `deleteDoc(doc(db, cid, i))` (idempotent). -/
def deleteDocIn (s : Store) (cid i : String) : Store :=
  setColl s cid ((getColl s cid).filter (fun p => decide (p.1 ≠ i)))

/-- A MongoDB database: a map from collection name to its documents (MongoDB
documents carry their surfaced `id` inside the document itself). -/
abbrev MStore := List (String × List Obj)

/-- The documents of one MongoDB collection. -/
def getMColl (s : MStore) (cid : String) : List Obj :=
  (assocGet s cid).getD []

/-- Replacing the contents of one MongoDB collection. -/
def setMColl (s : MStore) (cid : String) (docs : List Obj) : MStore :=
  assocSet s cid docs

-- Basic lemmas about the association-map, object and store helpers.

theorem assocGet_assocSet_self {α : Type} (l : List (String × α)) (k : String)
    (v : α) : assocGet (assocSet l k v) k = some v := by
  induction l with
  | nil => simp [assocSet, assocGet]
  | cons p rest ih =>
      by_cases h : p.1 = k
      · simp [assocSet, h, assocGet]
      · simpa [assocSet, h, assocGet, List.find?] using ih

theorem assocGet_assocSet_ne {α : Type} (l : List (String × α)) (k k' : String)
    (v : α) (h : k' ≠ k) : assocGet (assocSet l k v) k' = assocGet l k' := by
  induction l with
  | nil => simp [assocSet, assocGet, List.find?, Ne.symm h]
  | cons p rest ih =>
      by_cases h2 : p.1 = k
      · by_cases h3 : p.1 = k'
        · exact absurd (h3.symm.trans h2) h
        · simp [assocSet, h2, assocGet, List.find?, Ne.symm h, h3]
      · by_cases h3 : p.1 = k'
        · simp [assocSet, h2, assocGet, List.find?, h3, h]
        · simpa [assocSet, h2, assocGet, List.find?, h3] using ih

theorem assocSet_append_of_fresh {α : Type} (l : List (String × α))
    (k : String) (v : α) (h : ∀ p ∈ l, p.1 ≠ k) :
    assocSet l k v = l ++ [(k, v)] := by
  induction l with
  | nil => simp [assocSet]
  | cons q rest ih =>
      have hq : q.1 ≠ k := h q (by simp)
      simp [assocSet, hq, ih (fun p hp => h p (by simp [hp]))]

theorem assocGet_eq_none_iff {α : Type} (l : List (String × α)) (k : String) :
    assocGet l k = none ↔ ∀ p ∈ l, p.1 ≠ k := by
  simp [assocGet, List.find?_eq_none]

theorem keys_assocSet {α : Type} (l : List (String × α)) (k : String) (v : α) :
    (assocSet l k v).map Prod.fst
      = if k ∈ l.map Prod.fst then l.map Prod.fst
        else l.map Prod.fst ++ [k] := by
  induction l with
  | nil => simp [assocSet]
  | cons p rest ih =>
      by_cases h : p.1 = k
      · simp [assocSet, h]
      · have hk : ¬k = p.1 := fun he => h he.symm
        by_cases h2 : k ∈ rest.map Prod.fst
        · simp [assocSet, h, ih, h2, hk]
        · simp [assocSet, h, ih, h2, hk]

theorem mem_keys_assocSet {α : Type} (l : List (String × α)) (k j : String)
    (v : α) :
    j ∈ (assocSet l k v).map Prod.fst ↔ j ∈ l.map Prod.fst ∨ j = k := by
  rw [keys_assocSet]
  by_cases h : k ∈ l.map Prod.fst
  · simp only [if_pos h]
    constructor
    · exact Or.inl
    · rintro (hj | hj)
      · exact hj
      · exact hj ▸ h
  · simp [if_neg h]

theorem nodup_keys_assocSet {α : Type} (l : List (String × α)) (k : String)
    (v : α) (h : (l.map Prod.fst).Nodup) :
    ((assocSet l k v).map Prod.fst).Nodup := by
  rw [keys_assocSet]
  by_cases hk : k ∈ l.map Prod.fst
  · simpa [if_pos hk] using h
  · have : (l.map Prod.fst ++ [k]).Nodup := by
      rw [List.nodup_append]
      refine ⟨h, List.nodup_singleton k, ?_⟩
      intro a ha hb
      have : a = k := by simpa using hb
      exact hk (this ▸ ha)
    simpa [if_neg hk] using this

theorem getKey_setKey_self (o : Obj) (k : String) (v : Value) :
    getKey (setKey o k v) k = some v := assocGet_assocSet_self o k v

theorem getKey_setKey_ne (o : Obj) (k k' : String) (v : Value) (h : k' ≠ k) :
    getKey (setKey o k v) k' = getKey o k' := assocGet_assocSet_ne o k k' v h

theorem getKey_mergeObj_of_none (b : Obj) (k : String) :
    ∀ a : Obj, (∀ p ∈ b, p.1 ≠ k) → getKey (mergeObj a b) k = getKey a k := by
  induction b with
  | nil => intro a _; rfl
  | cons q rest ih =>
      intro a hb
      have hq : q.1 ≠ k := hb q (by simp)
      have : getKey (mergeObj (setKey a q.1 q.2) rest) k
          = getKey (setKey a q.1 q.2) k :=
        ih (setKey a q.1 q.2) (fun p hp => hb p (by simp [hp]))
      calc getKey (mergeObj a (q :: rest)) k
          = getKey (mergeObj (setKey a q.1 q.2) rest) k := rfl
        _ = getKey (setKey a q.1 q.2) k := this
        _ = getKey a k := getKey_setKey_ne a q.1 k q.2 (fun h => hq h.symm)

theorem keys_setKey (o : Obj) (k k' : String) (v : Value)
    (ho : ∀ p ∈ o, p.1 ≠ k') (hk : k ≠ k') :
    ∀ p ∈ setKey o k v, p.1 ≠ k' := by
  intro p hp
  have : p.1 ∈ (assocSet o k v).map Prod.fst := List.mem_map_of_mem Prod.fst hp
  rcases (mem_keys_assocSet o k p.1 v).1 this with hm | hm
  · rcases List.mem_map.1 hm with ⟨q, hq, hqe⟩
    exact hqe ▸ ho q hq
  · exact hm ▸ hk

theorem keys_mergeObj (b : Obj) (k : String) :
    ∀ a : Obj, (∀ p ∈ a, p.1 ≠ k) → (∀ p ∈ b, p.1 ≠ k) →
      ∀ p ∈ mergeObj a b, p.1 ≠ k := by
  induction b with
  | nil => intro a ha _; exact ha
  | cons q rest ih =>
      intro a ha hb
      have hq : q.1 ≠ k := hb q (by simp)
      exact ih (setKey a q.1 q.2) (keys_setKey a q.1 k q.2 ha hq)
        (fun p hp => hb p (by simp [hp]))

theorem getKey_eq_none_iff (o : Obj) (k : String) :
    getKey o k = none ↔ ∀ p ∈ o, p.1 ≠ k :=
  assocGet_eq_none_iff o k

theorem getColl_setColl_self (s : Store) (cid : String) (docs : List FDoc) :
    getColl (setColl s cid docs) cid = docs := by
  simp [getColl, setColl, assocGet_assocSet_self]

theorem getColl_setColl_other (s : Store) (cid cid' : String) (docs : List FDoc)
    (h : cid' ≠ cid) : getColl (setColl s cid docs) cid' = getColl s cid' := by
  simp [getColl, setColl, assocGet_assocSet_ne _ _ _ _ h]

theorem getMColl_setMColl_self (s : MStore) (cid : String) (docs : List Obj) :
    getMColl (setMColl s cid docs) cid = docs := by
  simp [getMColl, setMColl, assocGet_assocSet_self]

theorem getColl_setDocIn_self (s : Store) (cid i : String) (d : Obj) :
    getColl (setDocIn s cid i d) cid = upsertDoc (getColl s cid) i d := by
  simp [setDocIn, getColl_setColl_self]

theorem getColl_setDocIn_other (s : Store) (cid cid' i : String) (d : Obj)
    (h : cid' ≠ cid) : getColl (setDocIn s cid i d) cid' = getColl s cid' := by
  simp [setDocIn, getColl_setColl_other _ _ _ _ h]

theorem getDocIn_setDocIn_self (s : Store) (cid i : String) (d : Obj) :
    getDocIn (setDocIn s cid i d) cid i = some d := by
  simp [getDocIn, getColl_setDocIn_self, upsertDoc, assocGet_assocSet_self]

theorem getDocIn_setDocIn_ne (s : Store) (cid i i' : String) (d : Obj)
    (h : i' ≠ i) : getDocIn (setDocIn s cid i d) cid i' = getDocIn s cid i' := by
  simp [getDocIn, getColl_setDocIn_self, upsertDoc,
    assocGet_assocSet_ne _ _ _ _ h]

theorem upsertDoc_append_of_fresh (l : List FDoc) (i : String) (d : Obj)
    (h : ∀ p ∈ l, p.1 ≠ i) : upsertDoc l i d = l ++ [(i, d)] :=
  assocSet_append_of_fresh l i d h

theorem getKey_mergeObj_of_some (b : Obj) (k : String) (v : Value) :
    ∀ a : Obj, (b.map Prod.fst).Nodup → getKey b k = some v →
      getKey (mergeObj a b) k = some v := by
  induction b with
  | nil => intro a _ h; simp [getKey, assocGet, List.find?] at h
  | cons q rest ih =>
      intro a hnd h
      simp only [List.map_cons, List.nodup_cons] at hnd
      by_cases hq : q.1 = k
      · have hv : v = q.2 := by
          simp [getKey, assocGet, List.find?, hq] at h
          exact h.symm
        have hrest : ∀ p ∈ rest, p.1 ≠ k := by
          intro p hp he
          apply hnd.1
          rw [hq, ← he]
          exact List.mem_map_of_mem Prod.fst hp
        calc getKey (mergeObj a (q :: rest)) k
            = getKey (mergeObj (setKey a q.1 q.2) rest) k := rfl
          _ = getKey (setKey a q.1 q.2) k := getKey_mergeObj_of_none rest k _ hrest
          _ = some v := by rw [hq, getKey_setKey_self, hv]
      · have h2 : getKey rest k = some v := by
          simpa [getKey, assocGet, List.find?, hq] using h
        exact ih (setKey a q.1 q.2) hnd.2 h2

/-- Comparison `<` on field values as the stores apply range filters:
comparisons relate values of the same kind, mirroring typed comparison in
the backends. -/
def valueLt : Value → Value → Bool
  | .vstr a, .vstr b => strLtB a b
  | .vnum a, .vnum b => decide (a < b)
  | .vbool a, .vbool b => !a && b
  | .vtime a, .vtime b => decide (a < b)
  | _, _ => false

/-- Comparison `<=` on field values. -/
def valueLe (a b : Value) : Bool := decide (a = b) || valueLt a b

/-- The upper bound `value + ""` of the prefix range used for
`contains` filters and for text search. -/
def prefixUpper (t : String) : String := t.push (Char.ofNat 0xf8ff)

/-- Filter operators of the backend-neutral query specification
(`where: [field, operator, value]`). -/
inductive FilterOp where
  | feq
  | fgt
  | flt
  | fcontains
deriving DecidableEq

/-- Sort directions of the `orderBy` specification. -/
inductive Dir where
  | asc
  | desc
deriving DecidableEq

/-- The backend-neutral query specification (`QueryParams`): optional filter
triples, optional sort pairs, optional `limit` and `offset`. -/
structure QueryParams where
  whereC : Option (List (String × FilterOp × Value)) := none
  orderC : Option (List (String × Dir)) := none
  limitC : Option Nat := none
  offsetC : Option Nat := none

/-- The result shape of `queryDocuments` and `searchDocuments`. -/
structure QueryResult where
  data : List Obj
  total : Nat
  hasMore : Bool
deriving DecidableEq

/-- One Firestore `where(...)` constraint of `queryDocuments`: `eq`, `gt`,
`lt` map to native comparison; `contains` becomes the pair of range
constraints `>= value` and `<= value + ""`.  Documents missing the
field do not satisfy a comparison. -/
def fsFilterHolds (c : String × FilterOp × Value) (d : Obj) : Bool :=
  match c with
  | (f, .feq, v) => decide (getKey d f = some v)
  | (f, .fgt, v) =>
      match getKey d f with
      | some w => valueLt v w
      | none => false
  | (f, .flt, v) =>
      match getKey d f with
      | some w => valueLt w v
      | none => false
  | (f, .fcontains, v) =>
      match v, getKey d f with
      | .vstr t, some (.vstr s) =>
          valueLe (.vstr t) (.vstr s) && valueLe (.vstr s) (.vstr (prefixUpper t))
      | _, _ => false

/-- Applying the accumulated `where` constraints of the Firestore query
(the composed query returns the documents satisfying every clause). -/
def applyWhereFS (w : Option (List (String × FilterOp × Value)))
    (docs : List FDoc) : List FDoc :=
  match w with
  | none => docs
  | some cs => docs.filter (fun d => cs.all (fun c => fsFilterHolds c d.2))

/-- Comparison of possibly-missing field values for sorting: missing fields
sort first, as in Firestore. -/
def optValueLt : Option Value → Option Value → Bool
  | none, some _ => true
  | some a, some b => valueLt a b
  | _, _ => false

/-- The multi-key ordering built from the `orderBy` pairs (applied in
caller-supplied order, ties falling through to the next key). -/
def docLe : List (String × Dir) → FDoc → FDoc → Bool
  | [], _, _ => true
  | (f, dir) :: rest, a, b =>
      if getKey a.2 f = getKey b.2 f then docLe rest a b
      else
        match dir with
        | .asc => optValueLt (getKey a.2 f) (getKey b.2 f)
        | .desc => optValueLt (getKey b.2 f) (getKey a.2 f)

/-- Applying the accumulated `orderBy` sorting of the Firestore query. -/
def applyOrderFS (ob : Option (List (String × Dir))) (docs : List FDoc) :
    List FDoc :=
  match ob with
  | none => docs
  | some obs => docs.mergeSort (docLe obs)

/-- `startAfter(lastDoc)` on a result list: the documents strictly after the
cursor document (located by its id). -/
def startAfterDoc : List FDoc → String → List FDoc
  | [], _ => []
  | d :: rest, i => if d.1 = i then rest else startAfterDoc rest i

/-- The cursor-based offset stage of `queryDocuments` (`src/services/firebase.ts`,
identical in `DocumentService.queryDocuments`): when `offset` is truthy,
read the first `offset` rows, take that page's last row as a resume cursor
and continue strictly after it.  When the offset page is empty its last row
is `undefined` and the SDK rejects `startAfter(undefined)`, surfacing an
error. -/
def fsOffsetStage (sorted : List FDoc) (offsetC : Option Nat) :
    Except String (List FDoc) :=
  match offsetC with
  | some o =>
      if o ≠ 0 then
        match (sorted.take o).getLast? with
        | some lastDoc => .ok (startAfterDoc sorted lastDoc.1)
        | none => .error "Function startAfter() called with invalid data. Unsupported field value: undefined"
      else .ok sorted
  | none => .ok sorted

/-- The `limit(...)` cap, applied when `queryParams.limit` is truthy. -/
def fsLimitStage (l : List FDoc) (limitC : Option Nat) : List FDoc :=
  match limitC with
  | some lim => if lim ≠ 0 then l.take lim else l
  | none => l

/-- The composed filtered and sorted result list the Firestore query
pipeline reads for `total`. -/
def fsSortedMatches (s : Store) (cid : String) (qp : QueryParams) :
    List FDoc :=
  applyOrderFS qp.orderC (applyWhereFS qp.whereC (getColl s cid))

/-- `FirebaseService.queryDocuments` assembled from the stages above:
compose `where` clauses and `orderBy` clauses, read the full result once for
`total`, apply the offset stage and the limit cap, and report
`hasMore: data.length === queryParams.limit`. -/
def fsQueryDocuments (s : Store) (cid : String) (qp : QueryParams) :
    Except String QueryResult :=
  match fsOffsetStage (fsSortedMatches s cid qp) qp.offsetC with
  | .error e => .error e
  | .ok l =>
      .ok { data := (fsLimitStage l qp.limitC).map Prod.snd
            total := (fsSortedMatches s cid qp).length
            hasMore := decide (qp.limitC
              = some ((fsLimitStage l qp.limitC).map Prod.snd).length) }

/-- One MongoDB filter condition as `queryDocuments` builds them:
`eq` stores the bare value, `gt`/`lt` store `$gt`/`$lt`, and `contains`
stores a case-insensitive `$regex`. -/
inductive MCond where
  | ceq (v : Value)
  | cgt (v : Value)
  | clt (v : Value)
  | cregex (v : Value)
deriving DecidableEq

/-- Assigning `acc[field] = cond` while reducing the `where` clauses into a
single filter object: a later clause on the same field overwrites the
earlier one. -/
def setFieldCond : List (String × MCond) → String → MCond → List (String × MCond)
  | [], f, c => [(f, c)]
  | (g, c2) :: rest, f, c =>
      if g = f then (f, c) :: rest else (g, c2) :: setFieldCond rest f c

/-- The filter object `MongoDBService.queryDocuments` accumulates with
`reduce` over the `where` triples. -/
def buildMongoFilter (cs : List (String × FilterOp × Value)) :
    List (String × MCond) :=
  cs.foldl
    (fun acc c =>
      match c with
      | (f, .feq, v) => setFieldCond acc f (.ceq v)
      | (f, .fgt, v) => setFieldCond acc f (.cgt v)
      | (f, .flt, v) => setFieldCond acc f (.clt v)
      | (f, .fcontains, v) => setFieldCond acc f (.cregex v))
    []

/-- Whether a plain pattern occurs at the start of a character list. -/
def prefixOfList : List Char → List Char → Bool
  | [], _ => true
  | _ :: _, [] => false
  | a :: as, b :: bs => a = b && prefixOfList as bs

/-- Whether a plain pattern occurs somewhere in a character list. -/
def occursInList (pat : List Char) : List Char → Bool
  | [] => prefixOfList pat []
  | s :: rest => prefixOfList pat (s :: rest) || occursInList pat rest

/-- The case-insensitive `$regex` match for a plain search pattern:
the lower-cased pattern occurs in the lower-cased subject. -/
def ciContains (subject pat : String) : Bool :=
  occursInList (jsLower pat).data (jsLower subject).data

/-- Whether a document field satisfies one MongoDB filter condition. -/
def mgCondHolds (d : Obj) (fc : String × MCond) : Bool :=
  match fc with
  | (f, .ceq v) => decide (getKey d f = some v)
  | (f, .cgt v) =>
      match getKey d f with
      | some w => valueLt v w
      | none => false
  | (f, .clt v) =>
      match getKey d f with
      | some w => valueLt w v
      | none => false
  | (f, .cregex v) =>
      match v, getKey d f with
      | .vstr pat, some (.vstr s) => ciContains s pat
      | _, _ => false

/-- Whether a document matches the accumulated MongoDB filter object. -/
def mgDocMatches (filterO : List (String × MCond)) (d : Obj) : Bool :=
  filterO.all (mgCondHolds d)

/-- Assigning `acc[field] = direction` while reducing the `orderBy` pairs
into a single sort object (later pairs on the same field overwrite). -/
def setSortDir : List (String × Dir) → String → Dir → List (String × Dir)
  | [], f, c => [(f, c)]
  | (g, c2) :: rest, f, c =>
      if g = f then (f, c) :: rest else (g, c2) :: setSortDir rest f c

/-- The sort object `MongoDBService.queryDocuments` accumulates. -/
def buildMongoSort (obs : List (String × Dir)) : List (String × Dir) :=
  obs.foldl (fun acc p => setSortDir acc p.1 p.2) []

/-- The multi-key document ordering a MongoDB sort object induces. -/
def mgDocLe : List (String × Dir) → Obj → Obj → Bool
  | [], _, _ => true
  | (f, dir) :: rest, a, b =>
      if getKey a f = getKey b f then mgDocLe rest a b
      else
        match dir with
        | .asc => optValueLt (getKey a f) (getKey b f)
        | .desc => optValueLt (getKey b f) (getKey a f)

/-- The filter stage of `MongoDBService.queryDocuments`
(`src/services/mongodb.ts`): one filter object reduced from the `where`
triples (later clauses on a field overwrite earlier ones), applied to the
collection; the remaining stages sort, count the matches for `total` before
pagination, apply `skip(offset)` and `limit(...)` when truthy, and report
`hasMore: data.length === queryParams.limit`. -/
def mgFilteredDocs (s : MStore) (cid : String) (qp : QueryParams) :
    List Obj :=
  match qp.whereC with
  | none => getMColl s cid
  | some cs => (getMColl s cid).filter (mgDocMatches (buildMongoFilter cs))

/-- The filtered and sorted result list whose size `cursor.count()` reports
as `total` before pagination. -/
def mgSortedMatches (s : MStore) (cid : String) (qp : QueryParams) :
    List Obj :=
  match qp.orderC with
  | none => mgFilteredDocs s cid qp
  | some obs => (mgFilteredDocs s cid qp).mergeSort (mgDocLe (buildMongoSort obs))

/-- The `skip(offset)` stage, applied when `queryParams.offset` is truthy. -/
def mgOffsetStage (l : List Obj) (offsetC : Option Nat) : List Obj :=
  match offsetC with
  | some o => if o ≠ 0 then l.drop o else l
  | none => l

/-- The `limit(...)` stage, applied when `queryParams.limit` is truthy. -/
def mgLimitStage (l : List Obj) (limitC : Option Nat) : List Obj :=
  match limitC with
  | some lim => if lim ≠ 0 then l.take lim else l
  | none => l

/-- `MongoDBService.queryDocuments` assembled from the stages above. -/
def mgQueryDocuments (s : MStore) (cid : String) (qp : QueryParams) :
    QueryResult :=
  { data := mgLimitStage (mgOffsetStage (mgSortedMatches s cid qp) qp.offsetC)
      qp.limitC
    total := (mgSortedMatches s cid qp).length
    hasMore := decide (qp.limitC
      = some (mgLimitStage (mgOffsetStage (mgSortedMatches s cid qp)
          qp.offsetC) qp.limitC).length) }

/-- Whether a document matches the prefix range `[text, text + ""]` on
one field, as the per-field search queries constrain it. -/
def fieldPrefixMatches (text f : String) (d : Obj) : Bool :=
  match getKey d f with
  | some (.vstr sv) =>
      valueLe (.vstr text) (.vstr sv) && valueLe (.vstr sv) (.vstr (prefixUpper text))
  | _ => false

/-- Building a JavaScript `Map` keyed by document id from a list of
documents and listing its values: keys keep first-insertion order, a
re-inserted key overwrites the stored value in place. -/
def jsMapValues (l : List FDoc) : List FDoc :=
  l.foldl (fun m d => upsertDoc m d.1 d.2) []

/-- The merged, deduplicated result set of `searchDocuments` before
pagination: the concatenation of the per-field prefix-range results, fed
through a `Map` keyed by document id. -/
def fsSearchMerged (s : Store) (cid text : String) (fields : List String) :
    List FDoc :=
  jsMapValues
    ((fields.map
        (fun f => (getColl s cid).filter (fun d => fieldPrefixMatches text f d.2))).flatten)

/-- `FirebaseService.searchDocuments` (identical in
`DocumentService.searchDocuments`): one prefix-range query per requested
field, results merged and deduplicated by document id, `total` the size of
the deduplicated set, numeric-offset pagination over it, and
`hasMore = start + pageSize < total`. -/
def fsSearchDocuments (s : Store) (cid text : String) (fields : List String)
    (page : Nat := 1) (pageSize : Nat := 10) : QueryResult :=
  let uniqueDocs := fsSearchMerged s cid text fields
  let total := uniqueDocs.length
  let start := (page - 1) * pageSize
  let paginated := (uniqueDocs.drop start).take pageSize
  { data := paginated.map Prod.snd
    total := total
    hasMore := decide (start + pageSize < total) }

/-- Whether a document matches the single `$or` search query
`MongoDBService.searchDocuments` issues (a case-insensitive `$regex` per
requested field). -/
def mgDocMatchesSearch (text : String) (fields : List String) (d : Obj) : Bool :=
  fields.any
    (fun f =>
      match getKey d f with
      | some (.vstr sv) => ciContains sv text
      | _ => false)

/-- `MongoDBService.searchDocuments`: one `$or` query over the requested
fields, `total` from `countDocuments` on the same query, `skip/limit`
pagination, and `hasMore = page * pageSize < total`. -/
def mgSearchDocuments (s : MStore) (cid text : String) (fields : List String)
    (page : Nat := 1) (pageSize : Nat := 10) : QueryResult :=
  let matching := (getMColl s cid).filter (mgDocMatchesSearch text fields)
  let total := matching.length
  let data := (matching.drop ((page - 1) * pageSize)).take pageSize
  { data := data
    total := total
    hasMore := decide (page * pageSize < total) }

/-- `createDocument` of the Firestore backend (identical in
`DocumentService`): allocate a fresh document id, stamp
`createdAt = updatedAt = now`, persist the merged shape, and return
`\x7b fid: docRef.id, ...documentData \x7d`. -/
def fsCreateDocument (s : Store) (cid : String) (data : Obj)
    (freshId : String) (now : Nat) : Store × Obj :=
  let documentData :=
    mergeObj data
      [("fid", .vstr freshId), ("createdAt", .vtime now), ("updatedAt", .vtime now)]
  (setDocIn s cid freshId documentData,
    mergeObj [("fid", .vstr freshId)] documentData)

/-- `FirebaseService.updateDocument` (`src/services/firebase.ts`): the
caller's patch is spread unfiltered over `updatedAt`, merged into the stored
document by `updateDoc` (which fails when the document is absent), and the
post-update document is read back and returned. -/
def fsUpdateDocument (s : Store) (cid documentId : String) (data : Obj)
    (now : Nat) : Except String (Store × Obj) :=
  match getDocIn s cid documentId with
  | none => .error "No document to update"
  | some stored =>
      let updateData := mergeObj data [("updatedAt", .vtime now)]
      let s' := setDocIn s cid documentId (mergeObj stored updateData)
      .ok (s', (getDocIn s' cid documentId).getD [])

/-- `DocumentService.updateDocument` (the `src/unnamed/part_001` variant):
requires a truthy document id, destructures `fid` away from the caller's
patch, re-stamps `updatedAt`, merges by `updateDoc`, and returns
`\x7b fid: updated.id, ...updated.data() \x7d` read back from the store. -/
def dsUpdateDocument (s : Store) (cid documentId : String) (data : Obj)
    (now : Nat) : Except String (Store × Obj) :=
  if documentId = "" then .error "Document ID is required for update"
  else
    match getDocIn s cid documentId with
    | none => .error "No document to update"
    | some stored =>
        let updateData := removeKey data "fid"
        let finalUpdateData := mergeObj updateData [("updatedAt", .vtime now)]
        let s' := setDocIn s cid documentId (mergeObj stored finalUpdateData)
        .ok (s',
          mergeObj [("fid", .vstr documentId)] ((getDocIn s' cid documentId).getD []))

/-- The client-side shapes `batchCreateDocuments` pre-assigns before
committing: the i-th item merged with the i-th fresh id and the shared
timestamp. -/
def fsBatchDocs (documents : List Obj) (gen : Nat → String) (now : Nat) :
    List FDoc :=
  documents.enum.map
    (fun p =>
      (gen p.1,
        mergeObj p.2
          [("fid", .vstr (gen p.1)), ("createdAt", .vtime now), ("updatedAt", .vtime now)]))

/-- `batchCreateDocuments` of the Firestore backend (identical in
`DocumentService`): pre-assign ids and one shared timestamp, stage one
`batch.set` per item, commit once, and return the staged shapes in input
order.  A `writeBatch` commit is atomic: when the backend rejects any staged
write the whole commit fails and no operation is applied. -/
def fsBatchCreateDocuments (rejects : Obj → Bool) (s : Store) (cid : String)
    (documents : List Obj) (gen : Nat → String) (now : Nat) :
    Store × Except String (List Obj) :=
  let items := fsBatchDocs documents gen now
  if items.any (fun it => rejects it.2) then
    (s, .error "batch commit rejected by backend")
  else
    (items.foldl (fun st it => setDocIn st cid it.1 it.2) s,
      .ok (items.map Prod.snd))

/-- `batchUpdateDocuments` of the Firestore backend (identical in
`DocumentService`): stage one `batch.update` per `(id, data)` with the
shared timestamp, commit once, and return the locally constructed
`\x7b id, ...updateData \x7d` items — they are not read back from the
store.  The commit fails atomically when any target document is absent. -/
def fsBatchUpdateDocuments (s : Store) (cid : String)
    (documents : List (String × Obj)) (now : Nat) :
    Store × Except String (List Obj) :=
  let results :=
    documents.map
      (fun p => mergeObj [("id", .vstr p.1)] (mergeObj p.2 [("updatedAt", .vtime now)]))
  if documents.all (fun p => (getDocIn s cid p.1).isSome) then
    (documents.foldl
        (fun st p =>
          match getDocIn st cid p.1 with
          | some stored =>
              setDocIn st cid p.1 (mergeObj stored (mergeObj p.2 [("updatedAt", .vtime now)]))
          | none => st)
        s,
      .ok results)
  else (s, .error "No document to update")

/-- `MongoDBService.createDocument`: stamp `createdAt = updatedAt` from one
clock reading, assign `id: new Date().getTime().toString()` from a second
reading, insert, and return the local shape. -/
def mgCreateDocument (s : MStore) (cid : String) (data : Obj)
    (tsNow idNow : Nat) : MStore × Obj :=
  let doc :=
    mergeObj data
      [("id", .vstr (toString idNow)), ("createdAt", .vtime tsNow), ("updatedAt", .vtime tsNow)]
  (setMColl s cid (getMColl s cid ++ [doc]), doc)

/-- The shapes `MongoDBService.batchCreateDocuments` builds: a shared
timestamp from one clock reading, and per item an `id` rendered from the
clock reading taken while mapping that item. -/
def mgBatchDocs (documents : List Obj) (tsNow : Nat) (idClock : Nat → Nat) :
    List Obj :=
  documents.enum.map
    (fun p =>
      mergeObj p.2
        [("id", .vstr (toString (idClock p.1))),
         ("createdAt", .vtime tsNow), ("updatedAt", .vtime tsNow)])

/-- An ordered MongoDB `insertMany`: documents are inserted sequentially;
the first rejected document aborts the call but the earlier inserts remain
(no rollback). -/
def mgInsertMany (rejects : Obj → Bool) : List Obj → List Obj → List Obj × Bool
  | coll, [] => (coll, true)
  | coll, d :: rest =>
      if rejects d then (coll, false) else mgInsertMany rejects (coll ++ [d]) rest

/-- `MongoDBService.batchCreateDocuments`: build the shapes, `insertMany`
them, and return the shapes on success. -/
def mgBatchCreateDocuments (rejects : Obj → Bool) (s : MStore) (cid : String)
    (documents : List Obj) (tsNow : Nat) (idClock : Nat → Nat) :
    MStore × Except String (List Obj) :=
  let docs := mgBatchDocs documents tsNow idClock
  let inserted := mgInsertMany rejects (getMColl s cid) docs
  (setMColl s cid inserted.1,
    if inserted.2 then .ok docs else .error "insertMany rejected by backend")

/-- `updateOne(\x7b id: documentId \x7d, \x7b $set: setFields \x7d)`: merge
the set fields over the first document whose `id` field equals the given id;
a no-op when none matches (no upsert). -/
def mgUpdateFirst : List Obj → String → Obj → List Obj
  | [], _, _ => []
  | d :: rest, documentId, setFields =>
      if getKey d "id" = some (.vstr documentId) then
        mergeObj d setFields :: rest
      else d :: mgUpdateFirst rest documentId setFields

/-- `MongoDBService.getDocument`: `findOne(\x7b id: documentId \x7d)`,
`none` when no document matches. -/
def mgGetDocument (s : MStore) (cid documentId : String) : Option Obj :=
  (getMColl s cid).find?
    (fun d => decide (getKey d "id" = some (.vstr documentId)))

/-- `MongoDBService.updateDocument` (`src/services/mongodb.ts`):
`updateOne(\x7b id: documentId \x7d, \x7b $set: \x7b ...data, updatedAt:
timestamp \x7d \x7d)` followed by a `getDocument` read-back of the
post-update document. -/
def mgUpdateDocument (s : MStore) (cid documentId : String) (data : Obj)
    (now : Nat) : MStore × Option Obj :=
  (setMColl s cid
    (mgUpdateFirst (getMColl s cid) documentId
      (mergeObj data [("updatedAt", .vtime now)])),
   mgGetDocument
    (setMColl s cid
      (mgUpdateFirst (getMColl s cid) documentId
        (mergeObj data [("updatedAt", .vtime now)])))
    cid documentId)

/-- The normalized collection name `createCollection` computes:
`collectionData.name.toLowerCase().trim()`. -/
def normNameOf (collectionData : Obj) : String :=
  jsTrim (jsLower (getStrD collectionData "name"))

/-- The catalog path holding collection definitions. -/
def collectionsPath : String := "collections"

/-- `generateCollectionId`: the lower-cased name joined to a random base-36
suffix (the suffix is passed in explicitly). -/
def generateCollectionId (name shortId : String) : String :=
  jsLower name ++ "_" ++ shortId

/-- The stamped definition record `FirebaseService.createCollection`
(`src/services/firebase.ts`; `CollectionService.createCollection` is the
same logic) persists for a fresh name: the caller's definition merged with
the generated logical id, the backend document id, the normalized name and
`createdAt = updatedAt = now`. -/
def newCollObj (collectionData : Obj) (shortId freshFid : String)
    (now : Nat) : Obj :=
  mergeObj collectionData
    [("id", .vstr (generateCollectionId (normNameOf collectionData) shortId)),
     ("fid", .vstr freshFid),
     ("name", .vstr (normNameOf collectionData)),
     ("createdAt", .vtime now), ("updatedAt", .vtime now)]

/-- The seeding batch of `createCollection`: when seed data is supplied,
commit one batch writing every seed item into the new data space with a
fresh id and the creation timestamp. -/
def seedMockData (st : Store) (dataCollId : String) (mockData : List Obj)
    (mockGen : Nat → String) (now : Nat) : Store :=
  if mockData.isEmpty then st
  else
    mockData.enum.foldl
      (fun st2 p =>
        setDocIn st2 dataCollId (mockGen p.1)
          (mergeObj p.2
            [("fid", .vstr (mockGen p.1)),
             ("createdAt", .vtime now), ("updatedAt", .vtime now)]))
      st

/-- The body of `createCollection`: normalize the name; when a definition
with that name exists return it adapted (with
`id: existingData.id || existingDoc.id`, `fid`, and the normalized name)
without writing; otherwise persist the stamped definition and seed the new
data space. -/
def fsCreateCollection (s : Store) (collectionData : Obj) (mockData : List Obj)
    (shortId freshFid : String) (mockGen : Nat → String) (now : Nat) :
    Store × Obj :=
  match (getColl s collectionsPath).filter
      (fun p => decide (getKey p.2 "name"
        = some (.vstr (normNameOf collectionData)))) with
  | existingDoc :: _ =>
      (s,
        mergeObj existingDoc.2
          [("id", jsOr (getKey existingDoc.2 "id") (.vstr existingDoc.1)),
           ("fid", .vstr existingDoc.1),
           ("name", .vstr (normNameOf collectionData))])
  | [] =>
      (seedMockData
        (setDocIn s collectionsPath freshFid
          (newCollObj collectionData shortId freshFid now))
        (generateCollectionId (normNameOf collectionData) shortId)
        mockData mockGen now,
       newCollObj collectionData shortId freshFid now)

/-- `FirebaseService.deleteCollection` (`CollectionService.deleteCollection`
is the same logic): look the definition up by its catalog document id,
failing when absent; otherwise stage the deletion of every document in the
data space named by the definition's `id` field together with the
definition record, and commit the batch. -/
def fsDeleteCollection (s : Store) (collectionId : String) :
    Except String Store :=
  match getDocIn s collectionsPath collectionId with
  | none => .error ("Collection " ++ collectionId ++ " not found")
  | some collectionData =>
      let dataId := getStrD collectionData "id"
      let docs := getColl s dataId
      let s1 :=
        if docs.isEmpty then s
        else docs.foldl (fun st d => deleteDocIn st dataId d.1) s
      .ok (deleteDocIn s1 collectionsPath collectionId)

-- Reading back the three stamp fields every write merges over the caller
-- payload (`id`/`fid`, `createdAt`, `updatedAt`).

theorem getKey_merge3_first (a : Obj) (k1 k2 k3 : String) (v1 v2 v3 : Value)
    (h12 : k1 ≠ k2) (h13 : k1 ≠ k3) :
    getKey (mergeObj a [(k1, v1), (k2, v2), (k3, v3)]) k1 = some v1 := by
  show getKey (setKey (setKey (setKey a k1 v1) k2 v2) k3 v3) k1 = some v1
  rw [getKey_setKey_ne _ _ _ _ h13, getKey_setKey_ne _ _ _ _ h12,
    getKey_setKey_self]

theorem getKey_merge3_second (a : Obj) (k1 k2 k3 : String) (v1 v2 v3 : Value)
    (h23 : k2 ≠ k3) :
    getKey (mergeObj a [(k1, v1), (k2, v2), (k3, v3)]) k2 = some v2 := by
  show getKey (setKey (setKey (setKey a k1 v1) k2 v2) k3 v3) k2 = some v2
  rw [getKey_setKey_ne _ _ _ _ h23, getKey_setKey_self]

theorem getKey_merge3_third (a : Obj) (k1 k2 k3 : String) (v1 v2 v3 : Value) :
    getKey (mergeObj a [(k1, v1), (k2, v2), (k3, v3)]) k3 = some v3 := by
  show getKey (setKey (setKey (setKey a k1 v1) k2 v2) k3 v3) k3 = some v3
  rw [getKey_setKey_self]

theorem getKey_merge3_other (a : Obj) (k1 k2 k3 k : String) (v1 v2 v3 : Value)
    (h1 : k ≠ k1) (h2 : k ≠ k2) (h3 : k ≠ k3) :
    getKey (mergeObj a [(k1, v1), (k2, v2), (k3, v3)]) k = getKey a k := by
  show getKey (setKey (setKey (setKey a k1 v1) k2 v2) k3 v3) k = getKey a k
  rw [getKey_setKey_ne _ _ _ _ h3, getKey_setKey_ne _ _ _ _ h2,
    getKey_setKey_ne _ _ _ _ h1]

theorem mgBatchDocs_getD (documents : List Obj) (tsNow : Nat)
    (idClock : Nat → Nat) (i : Nat) (hi : i < documents.length) :
    (mgBatchDocs documents tsNow idClock).getD i []
      = mergeObj (documents.getD i [])
          [("id", .vstr (toString (idClock i))),
           ("createdAt", .vtime tsNow), ("updatedAt", .vtime tsNow)] := by
  have h1 : documents[i]? = some documents[i] := List.getElem?_eq_getElem hi
  simp [mgBatchDocs, List.getD_eq_getElem?_getD, List.getElem?_enum, h1]

/-- C2: for every `queryDocuments` call, in both backends, the returned
`hasMore` flag is true exactly when the length of the returned data page
equals the supplied `limit`; in particular, whenever `limit` is absent,
`hasMore` is false regardless of how many matching documents were not
returned. -/
theorem c2_hasMore_iff_page_eq_limit (s : Store) (ms : MStore) (cid : String)
    (qp : QueryParams) :
    (∀ res, fsQueryDocuments s cid qp = .ok res →
        ((res.hasMore = true ↔ qp.limitC = some res.data.length) ∧
          (qp.limitC = none → res.hasMore = false))) ∧
    (((mgQueryDocuments ms cid qp).hasMore = true ↔
        qp.limitC = some (mgQueryDocuments ms cid qp).data.length) ∧
      (qp.limitC = none → (mgQueryDocuments ms cid qp).hasMore = false)) := by
  constructor
  · intro res h
    unfold fsQueryDocuments at h
    cases hoff : fsOffsetStage (fsSortedMatches s cid qp) qp.offsetC with
    | error e => rw [hoff] at h; cases h
    | ok l =>
        rw [hoff] at h
        cases h
        refine ⟨by simp, fun hnone => by simp [hnone]⟩
  · refine ⟨by simp [mgQueryDocuments], fun hnone => by simp [mgQueryDocuments, hnone]⟩

/-- Witness for C2 at a one-document store queried with `limit = 1`. -/
theorem c2_witness :
    (QueryResult.mk [[("a", Value.vnum 1)]] 1 true).hasMore = true ↔
      (QueryParams.mk none none (some 1) none).limitC
        = some (QueryResult.mk [[("a", Value.vnum 1)]] 1 true).data.length :=
  ((c2_hasMore_iff_page_eq_limit [("c", [("d1", [("a", Value.vnum 1)])])] []
      "c" (QueryParams.mk none none (some 1) none)).1
    (QueryResult.mk [[("a", Value.vnum 1)]] 1 true) rfl).1

/-- C10: in the MongoDB backend, `createDocument` and
`batchCreateDocuments` derive every document identity from
`new Date().getTime().toString()` — the wall-clock millisecond reading
rendered as a decimal string — so two creations whose id-generation clock
readings fall in the same millisecond, including distinct items of one
batch, receive identical identities. -/
theorem c10_mongo_identities_from_clock (s : MStore) (cid : String)
    (data : Obj) (documents : List Obj) (tsNow idNow tsB : Nat)
    (idClock : Nat → Nat) (i j : Nat)
    (hi : i < documents.length) (hj : j < documents.length)
    (hsame : idClock i = idClock j) :
    getKey (mgCreateDocument s cid data tsNow idNow).2 "id"
        = some (.vstr (toString idNow)) ∧
    getKey ((mgBatchDocs documents tsB idClock).getD i []) "id"
        = some (.vstr (toString (idClock i))) ∧
    getKey ((mgBatchDocs documents tsB idClock).getD i []) "id"
        = getKey ((mgBatchDocs documents tsB idClock).getD j []) "id" := by
  refine ⟨?_, ?_, ?_⟩
  · have hred : (mgCreateDocument s cid data tsNow idNow).2
        = mergeObj data
            [("id", .vstr (toString idNow)),
             ("createdAt", .vtime tsNow), ("updatedAt", .vtime tsNow)] := rfl
    rw [hred]
    exact getKey_merge3_first _ _ _ _ _ _ _ (by decide) (by decide)
  · rw [mgBatchDocs_getD documents tsB idClock i hi]
    exact getKey_merge3_first _ _ _ _ _ _ _ (by decide) (by decide)
  · rw [mgBatchDocs_getD documents tsB idClock i hi,
      mgBatchDocs_getD documents tsB idClock j hj,
      getKey_merge3_first _ _ _ _ _ _ _ (by decide) (by decide),
      getKey_merge3_first _ _ _ _ _ _ _ (by decide) (by decide), hsame]

/-- Witness for C10: a two-item batch whose id-generation clock readings
both fall in millisecond 5 receives the identity `"5"` for both items. -/
theorem c10_witness :
    getKey (mgCreateDocument [] "c" [] 5 5).2 "id"
        = some (.vstr (toString 5)) ∧
    getKey ((mgBatchDocs [[], []] 5 (fun _ => 5)).getD 0 []) "id"
        = some (.vstr (toString 5)) ∧
    getKey ((mgBatchDocs [[], []] 5 (fun _ => 5)).getD 0 []) "id"
        = getKey ((mgBatchDocs [[], []] 5 (fun _ => 5)).getD 1 []) "id" :=
  c10_mongo_identities_from_clock [] "c" [] [[], []] 5 5 5 (fun _ => 5) 0 1
    (by decide) (by decide) rfl

/-- C9: `batchUpdateDocuments` returns, for each input, the locally
constructed merge of the id, the patch fields and the shared `updatedAt` —
not the document read back from the store — so stored fields outside the
patch are absent from the returned item while still present in the store;
single-document `updateDocument`, in contrast, returns the post-update
document read back from the store, which does contain them. -/
theorem c9_batch_update_returns_local_merge (s : Store) (cid id : String)
    (patch stored : Obj) (now : Nat) (k : String) (vk : Value)
    (hdoc : getDocIn s cid id = some stored)
    (hk : getKey stored k = some vk)
    (hpk : getKey patch k = none)
    (hkid : k ≠ "id") (hkupd : k ≠ "updatedAt") :
    (fsBatchUpdateDocuments s cid [(id, patch)] now
        = (setDocIn s cid id
            (mergeObj stored (mergeObj patch [("updatedAt", .vtime now)])),
           .ok [mergeObj [("id", .vstr id)]
            (mergeObj patch [("updatedAt", .vtime now)])])) ∧
    getKey (mergeObj [("id", .vstr id)]
        (mergeObj patch [("updatedAt", .vtime now)])) k = none ∧
    ((getDocIn (setDocIn s cid id
          (mergeObj stored (mergeObj patch [("updatedAt", .vtime now)]))) cid id).map
        (fun d => getKey d k) = some (some vk)) ∧
    (∃ s' r, fsUpdateDocument s cid id patch now = .ok (s', r) ∧
        getKey r k = some vk) := by
  have hpatchkeys : ∀ p ∈ patch, p.1 ≠ k := (getKey_eq_none_iff patch k).1 hpk
  have hmred : mergeObj patch [("updatedAt", Value.vtime now)]
      = setKey patch "updatedAt" (Value.vtime now) := rfl
  have hmkeys : ∀ p ∈ mergeObj patch [("updatedAt", Value.vtime now)], p.1 ≠ k := by
    rw [hmred]
    exact keys_setKey patch "updatedAt" k _ hpatchkeys (Ne.symm hkupd)
  have h3 : getKey (mergeObj stored (mergeObj patch [("updatedAt", Value.vtime now)])) k
      = some vk := by
    rw [getKey_mergeObj_of_none _ _ _ hmkeys, hk]
  refine ⟨?_, ?_, ?_, ?_⟩
  · simp [fsBatchUpdateDocuments, hdoc]
  · rw [getKey_mergeObj_of_none _ _ _ hmkeys]
    simp [getKey, assocGet, List.find?, Ne.symm hkid]
  · rw [getDocIn_setDocIn_self]
    simp [h3]
  · refine ⟨setDocIn s cid id
        (mergeObj stored (mergeObj patch [("updatedAt", .vtime now)])),
      mergeObj stored (mergeObj patch [("updatedAt", .vtime now)]), ?_, h3⟩
    simp [fsUpdateDocument, hdoc, getDocIn_setDocIn_self]

/-- Witness for C9: the stored field `x` survives in the store and in the
read-back result of a single update, but is absent from the batch-update
return item. -/
theorem c9_witness :
    getKey (mergeObj [("id", Value.vstr "d1")]
        (mergeObj [("y", Value.vnum 9)] [("updatedAt", Value.vtime 6)])) "x"
      = none ∧
    (∃ s' r, fsUpdateDocument
          [("c", [("d1", [("fid", Value.vstr "d1"), ("x", Value.vnum 7)])])]
          "c" "d1" [("y", Value.vnum 9)] 6 = .ok (s', r) ∧
        getKey r "x" = some (Value.vnum 7)) := by
  have h := c9_batch_update_returns_local_merge
    [("c", [("d1", [("fid", Value.vstr "d1"), ("x", Value.vnum 7)])])]
    "c" "d1" [("y", Value.vnum 9)] [("fid", Value.vstr "d1"), ("x", Value.vnum 7)]
    6 "x" (Value.vnum 7) (by decide) (by decide) (by decide) (by decide) (by decide)
  exact ⟨h.2.1, h.2.2.2⟩

/-- C7 counterexample: in `FirebaseService.updateDocument` the caller's
patch is spread unfiltered, so a patch carrying `fid: "evil"` overwrites the
stored identity field — the claim that identity fields in the patch are
stripped for every update fails on this code path. -/
theorem c7_counterexample :
    fsUpdateDocument
        [("c", [("d1", [("fid", Value.vstr "d1"), ("x", Value.vnum 1)])])]
        "c" "d1" [("fid", Value.vstr "evil")] 9
      = .ok ([("c", [("d1",
            [("fid", Value.vstr "evil"), ("x", Value.vnum 1),
             ("updatedAt", Value.vtime 9)])])],
          [("fid", Value.vstr "evil"), ("x", Value.vnum 1),
           ("updatedAt", Value.vtime 9)]) ∧
    getKey [("fid", Value.vstr "evil"), ("x", Value.vnum 1),
        ("updatedAt", Value.vtime 9)] "fid"
      ≠ getKey [("fid", Value.vstr "d1"), ("x", Value.vnum 1)] "fid" :=
  ⟨rfl, by decide⟩

/-- C7 amended: only `DocumentService.updateDocument` strips the caller's
`fid` before merging, so there the stored identity field survives any patch;
`FirebaseService.updateDocument` and `batchUpdateDocuments` spread the patch
unfiltered, so a caller-supplied `fid` overwrites the stored identity
field. -/
theorem c7_amended_fid_stripping (s : Store) (cid documentId : String)
    (data stored : Obj) (now : Nat) (v : Value)
    (hnd : (data.map Prod.fst).Nodup) :
    (getDocIn s cid documentId = some stored → documentId ≠ "" →
      ∃ s' r, dsUpdateDocument s cid documentId data now = .ok (s', r) ∧
        (getDocIn s' cid documentId).map (fun d => getKey d "fid")
          = some (getKey stored "fid")) ∧
    (getDocIn s cid documentId = some stored → getKey data "fid" = some v →
      ∃ s' r, fsUpdateDocument s cid documentId data now = .ok (s', r) ∧
        (getDocIn s' cid documentId).map (fun d => getKey d "fid")
          = some (some v)) ∧
    (getDocIn s cid documentId = some stored → getKey data "fid" = some v →
      ∃ s' rs, fsBatchUpdateDocuments s cid [(documentId, data)] now
          = (s', .ok rs) ∧
        (getDocIn s' cid documentId).map (fun d => getKey d "fid")
          = some (some v)) := by
  refine ⟨?_, ?_, ?_⟩
  · intro hdoc hid
    have hremkeys : ∀ p ∈ removeKey data "fid", p.1 ≠ "fid" := by
      intro p hp
      simpa using (List.mem_filter.1 hp).2
    have hbkeys : ∀ p ∈ mergeObj (removeKey data "fid")
        [("updatedAt", Value.vtime now)], p.1 ≠ "fid" :=
      keys_setKey (removeKey data "fid") "updatedAt" "fid" _ hremkeys (by decide)
    refine ⟨setDocIn s cid documentId
        (mergeObj stored (mergeObj (removeKey data "fid")
          [("updatedAt", .vtime now)])),
      mergeObj [("fid", Value.vstr documentId)]
        (mergeObj stored (mergeObj (removeKey data "fid")
          [("updatedAt", .vtime now)])), ?_, ?_⟩
    · simp [dsUpdateDocument, hid, hdoc, getDocIn_setDocIn_self]
    · rw [getDocIn_setDocIn_self]
      simp [getKey_mergeObj_of_none _ _ _ hbkeys]
  · intro hdoc hv
    have hbnd : ((mergeObj data [("updatedAt", Value.vtime now)]).map Prod.fst).Nodup :=
      nodup_keys_assocSet data "updatedAt" _ hnd
    have hbv : getKey (mergeObj data [("updatedAt", Value.vtime now)]) "fid"
        = some v := by
      have : mergeObj data [("updatedAt", Value.vtime now)]
          = setKey data "updatedAt" (Value.vtime now) := rfl
      rw [this, getKey_setKey_ne _ _ _ _ (by decide), hv]
    refine ⟨setDocIn s cid documentId
        (mergeObj stored (mergeObj data [("updatedAt", .vtime now)])),
      mergeObj stored (mergeObj data [("updatedAt", .vtime now)]), ?_, ?_⟩
    · simp [fsUpdateDocument, hdoc, getDocIn_setDocIn_self]
    · rw [getDocIn_setDocIn_self]
      simp [getKey_mergeObj_of_some _ _ _ _ hbnd hbv]
  · intro hdoc hv
    have hbnd : ((mergeObj data [("updatedAt", Value.vtime now)]).map Prod.fst).Nodup :=
      nodup_keys_assocSet data "updatedAt" _ hnd
    have hbv : getKey (mergeObj data [("updatedAt", Value.vtime now)]) "fid"
        = some v := by
      have : mergeObj data [("updatedAt", Value.vtime now)]
          = setKey data "updatedAt" (Value.vtime now) := rfl
      rw [this, getKey_setKey_ne _ _ _ _ (by decide), hv]
    refine ⟨setDocIn s cid documentId
        (mergeObj stored (mergeObj data [("updatedAt", .vtime now)])),
      [mergeObj [("id", Value.vstr documentId)]
        (mergeObj data [("updatedAt", .vtime now)])], ?_, ?_⟩
    · simp [fsBatchUpdateDocuments, hdoc]
    · rw [getDocIn_setDocIn_self]
      simp [getKey_mergeObj_of_some _ _ _ _ hbnd hbv]

/-- Witness for C7: with a patch carrying `fid: "evil"`, the
`DocumentService` path preserves the stored identity `"d1"` while the
`FirebaseService` path stores `"evil"`. -/
theorem c7_witness :
    (∃ s' r, dsUpdateDocument
          [("c", [("d1", [("fid", Value.vstr "d1"), ("x", Value.vnum 1)])])]
          "c" "d1" [("fid", Value.vstr "evil")] 9 = .ok (s', r) ∧
        (getDocIn s' "c" "d1").map (fun d => getKey d "fid")
          = some (getKey [("fid", Value.vstr "d1"), ("x", Value.vnum 1)] "fid")) ∧
    (∃ s' r, fsUpdateDocument
          [("c", [("d1", [("fid", Value.vstr "d1"), ("x", Value.vnum 1)])])]
          "c" "d1" [("fid", Value.vstr "evil")] 9 = .ok (s', r) ∧
        (getDocIn s' "c" "d1").map (fun d => getKey d "fid")
          = some (some (Value.vstr "evil"))) := by
  have h := c7_amended_fid_stripping
    [("c", [("d1", [("fid", Value.vstr "d1"), ("x", Value.vnum 1)])])]
    "c" "d1" [("fid", Value.vstr "evil")]
    [("fid", Value.vstr "d1"), ("x", Value.vnum 1)] 9 (Value.vstr "evil")
    (by decide)
  exact ⟨h.1 (by decide) (by decide), h.2.1 (by decide) (by decide)⟩

/-- C6 counterexample: creating a document at clock reading 5 and updating
it at the same reading (two calls inside one millisecond) leaves
`updatedAt` at `vtime 5`, equal to — not strictly greater than — its
previous value, refuting the claim that `updatedAt` is strictly greater
after any update call. -/
theorem c6_counterexample :
    dsUpdateDocument (fsCreateDocument [] "c" [] "d1" 5).1 "c" "d1" [] 5
      = .ok ([("c", [("d1",
            [("fid", Value.vstr "d1"), ("createdAt", Value.vtime 5),
             ("updatedAt", Value.vtime 5)])])],
          [("fid", Value.vstr "d1"), ("createdAt", Value.vtime 5),
           ("updatedAt", Value.vtime 5)]) ∧
    (getDocIn (fsCreateDocument [] "c" [] "d1" 5).1 "c" "d1").map
        (fun d => getKey d "updatedAt") = some (some (Value.vtime 5)) :=
  ⟨rfl, rfl⟩

-- Locating a freshly appended MongoDB document by its `id` field, for the
-- `findOne`/`updateOne` filters.

theorem find?_id_append_last (coll : List Obj) (documentId : String) (d : Obj)
    (hfresh : ∀ x ∈ coll, ¬getKey x "id" = some (.vstr documentId))
    (hd : getKey d "id" = some (.vstr documentId)) :
    (coll ++ [d]).find?
        (fun x => decide (getKey x "id" = some (.vstr documentId)))
      = some d := by
  rw [List.find?_append]
  have h1 : coll.find?
      (fun x => decide (getKey x "id" = some (.vstr documentId))) = none :=
    List.find?_eq_none.2 (fun x hx => by simpa using hfresh x hx)
  rw [h1]
  simp [List.find?, hd]

theorem mgUpdateFirst_append (documentId : String) (setFields d : Obj)
    (hd : getKey d "id" = some (.vstr documentId)) :
    ∀ coll : List Obj,
      (∀ x ∈ coll, ¬getKey x "id" = some (.vstr documentId)) →
      mgUpdateFirst (coll ++ [d]) documentId setFields
        = coll ++ [mergeObj d setFields] := by
  intro coll
  induction coll with
  | nil => intro _; simp [mgUpdateFirst, hd]
  | cons x rest ih =>
      intro h
      have hx : ¬getKey x "id" = some (.vstr documentId) := h x (by simp)
      simp only [List.cons_append, mgUpdateFirst, if_neg hx]
      simp only [List.append_eq]
      rw [ih (fun y hy => h y (by simp [hy]))]

/-- C6 amended: in both backends, `createdAt` is stamped once at creation,
equal to `updatedAt` at that moment, and is never modified by an update
whose patch carries no timestamp keys; an update re-stamps `updatedAt` to
the update's clock reading, so with a non-decreasing clock
`updatedAt >= createdAt` holds after every operation and `updatedAt` is
non-decreasing across updates — strictly greater than its previous value
exactly when the clock advanced, and unchanged when the update lands in the
same millisecond.  The Firestore path is `fsCreateDocument` plus
`dsUpdateDocument`; the MongoDB path is `mgCreateDocument` plus
`mgUpdateDocument` (`updateOne` with `$set` and a `getDocument`
read-back), where the created document's `id` is assumed fresh so the
`\x7b id \x7d` filters address it. -/
theorem c6_amended_timestamp_monotonicity (s : Store) (ms : MStore)
    (cid : String) (data patch : Obj) (freshId : String) (idN t0 t1 : Nat)
    (hfid : freshId ≠ "")
    (hpc : getKey patch "createdAt" = none)
    (hpi : getKey patch "id" = none)
    (hnd : (patch.map Prod.fst).Nodup)
    (hfresh : ∀ x ∈ getMColl ms cid,
      ¬getKey x "id" = some (.vstr (toString idN)))
    (hmono : t0 ≤ t1) :
    (∃ d0, getDocIn (fsCreateDocument s cid data freshId t0).1 cid freshId
          = some d0 ∧
        getKey d0 "createdAt" = some (.vtime t0) ∧
        getKey d0 "updatedAt" = some (.vtime t0)) ∧
    (∃ s2 r d1,
        dsUpdateDocument (fsCreateDocument s cid data freshId t0).1 cid freshId
            patch t1 = .ok (s2, r) ∧
        getDocIn s2 cid freshId = some d1 ∧
        getKey d1 "createdAt" = some (.vtime t0) ∧
        getKey d1 "updatedAt" = some (.vtime t1) ∧
        t0 ≤ t1) ∧
    (∃ d0m, mgGetDocument (mgCreateDocument ms cid data t0 idN).1 cid
          (toString idN) = some d0m ∧
        getKey d0m "createdAt" = some (.vtime t0) ∧
        getKey d0m "updatedAt" = some (.vtime t0)) ∧
    (∃ d1m,
        mgGetDocument (mgUpdateDocument (mgCreateDocument ms cid data t0
            idN).1 cid (toString idN) patch t1).1 cid (toString idN)
          = some d1m ∧
        (mgUpdateDocument (mgCreateDocument ms cid data t0 idN).1 cid
            (toString idN) patch t1).2 = some d1m ∧
        getKey d1m "createdAt" = some (.vtime t0) ∧
        getKey d1m "updatedAt" = some (.vtime t1) ∧
        t0 ≤ t1) := by
  have hcr : (fsCreateDocument s cid data freshId t0).1
      = setDocIn s cid freshId
          (mergeObj data
            [("fid", .vstr freshId), ("createdAt", .vtime t0),
             ("updatedAt", .vtime t0)]) := rfl
  have hd0 : getDocIn (fsCreateDocument s cid data freshId t0).1 cid freshId
      = some (mergeObj data
          [("fid", .vstr freshId), ("createdAt", .vtime t0),
           ("updatedAt", .vtime t0)]) := by
    rw [hcr, getDocIn_setDocIn_self]
  have hc0 : getKey (mergeObj data
      [("fid", .vstr freshId), ("createdAt", .vtime t0),
       ("updatedAt", .vtime t0)]) "createdAt" = some (.vtime t0) :=
    getKey_merge3_second _ _ _ _ _ _ _ (by decide)
  have hu0 : getKey (mergeObj data
      [("fid", .vstr freshId), ("createdAt", .vtime t0),
       ("updatedAt", .vtime t0)]) "updatedAt" = some (.vtime t0) :=
    getKey_merge3_third _ _ _ _ _ _ _
  have hbred : mergeObj (removeKey patch "fid") [("updatedAt", Value.vtime t1)]
      = setKey (removeKey patch "fid") "updatedAt" (Value.vtime t1) := rfl
  have hbkeysc : ∀ p ∈ mergeObj (removeKey patch "fid")
      [("updatedAt", Value.vtime t1)], p.1 ≠ "createdAt" := by
    rw [hbred]
    refine keys_setKey _ _ _ _ ?_ (by decide)
    intro p hp
    exact (getKey_eq_none_iff patch "createdAt").1 hpc p (List.mem_filter.1 hp).1
  have hbnd : ((mergeObj (removeKey patch "fid")
      [("updatedAt", Value.vtime t1)]).map Prod.fst).Nodup := by
    rw [hbred]
    exact nodup_keys_assocSet _ _ _
      (((List.filter_sublist _).map Prod.fst).nodup hnd)
  have hbu : getKey (mergeObj (removeKey patch "fid")
      [("updatedAt", Value.vtime t1)]) "updatedAt" = some (.vtime t1) := by
    rw [hbred]
    exact getKey_setKey_self _ _ _
  have hmcoll1 : getMColl (mgCreateDocument ms cid data t0 idN).1 cid
      = getMColl ms cid
        ++ [mergeObj data
            [("id", .vstr (toString idN)), ("createdAt", .vtime t0),
             ("updatedAt", .vtime t0)]] := getMColl_setMColl_self _ _ _
  have hmid0 : getKey (mergeObj data
      [("id", .vstr (toString idN)), ("createdAt", .vtime t0),
       ("updatedAt", .vtime t0)]) "id" = some (.vstr (toString idN)) :=
    getKey_merge3_first _ _ _ _ _ _ _ (by decide) (by decide)
  have hmc0 : getKey (mergeObj data
      [("id", .vstr (toString idN)), ("createdAt", .vtime t0),
       ("updatedAt", .vtime t0)]) "createdAt" = some (.vtime t0) :=
    getKey_merge3_second _ _ _ _ _ _ _ (by decide)
  have hmu0 : getKey (mergeObj data
      [("id", .vstr (toString idN)), ("createdAt", .vtime t0),
       ("updatedAt", .vtime t0)]) "updatedAt" = some (.vtime t0) :=
    getKey_merge3_third _ _ _ _ _ _ _
  have hm1 : mgGetDocument (mgCreateDocument ms cid data t0 idN).1 cid
      (toString idN)
      = some (mergeObj data
          [("id", .vstr (toString idN)), ("createdAt", .vtime t0),
           ("updatedAt", .vtime t0)]) := by
    show (getMColl (mgCreateDocument ms cid data t0 idN).1 cid).find?
        (fun d => decide (getKey d "id" = some (.vstr (toString idN)))) = _
    rw [hmcoll1]
    exact find?_id_append_last _ _ _ hfresh hmid0
  have hsbred : mergeObj patch [("updatedAt", Value.vtime t1)]
      = setKey patch "updatedAt" (Value.vtime t1) := rfl
  have hsbc : ∀ p ∈ mergeObj patch [("updatedAt", Value.vtime t1)],
      p.1 ≠ "createdAt" := by
    rw [hsbred]
    exact keys_setKey _ _ _ _
      ((getKey_eq_none_iff patch "createdAt").1 hpc) (by decide)
  have hsbi : ∀ p ∈ mergeObj patch [("updatedAt", Value.vtime t1)],
      p.1 ≠ "id" := by
    rw [hsbred]
    exact keys_setKey _ _ _ _
      ((getKey_eq_none_iff patch "id").1 hpi) (by decide)
  have hsbnd : ((mergeObj patch
      [("updatedAt", Value.vtime t1)]).map Prod.fst).Nodup := by
    rw [hsbred]
    exact nodup_keys_assocSet _ _ _ hnd
  have hsbu : getKey (mergeObj patch [("updatedAt", Value.vtime t1)])
      "updatedAt" = some (.vtime t1) := by
    rw [hsbred]
    exact getKey_setKey_self _ _ _
  have hupd : mgUpdateFirst
      (getMColl (mgCreateDocument ms cid data t0 idN).1 cid)
      (toString idN) (mergeObj patch [("updatedAt", .vtime t1)])
      = getMColl ms cid
        ++ [mergeObj (mergeObj data
            [("id", .vstr (toString idN)), ("createdAt", .vtime t0),
             ("updatedAt", .vtime t0)])
          (mergeObj patch [("updatedAt", .vtime t1)])] := by
    rw [hmcoll1]
    exact mgUpdateFirst_append _ _ _ hmid0 _ hfresh
  have hd1id : getKey (mergeObj (mergeObj data
      [("id", .vstr (toString idN)), ("createdAt", .vtime t0),
       ("updatedAt", .vtime t0)])
      (mergeObj patch [("updatedAt", .vtime t1)])) "id"
      = some (.vstr (toString idN)) := by
    rw [getKey_mergeObj_of_none _ _ _ hsbi]
    exact hmid0
  have hread : mgGetDocument (mgUpdateDocument
      (mgCreateDocument ms cid data t0 idN).1 cid (toString idN) patch t1).1
      cid (toString idN)
      = some (mergeObj (mergeObj data
          [("id", .vstr (toString idN)), ("createdAt", .vtime t0),
           ("updatedAt", .vtime t0)])
        (mergeObj patch [("updatedAt", .vtime t1)])) := by
    show (getMColl (setMColl (mgCreateDocument ms cid data t0 idN).1 cid
        (mgUpdateFirst (getMColl (mgCreateDocument ms cid data t0 idN).1 cid)
          (toString idN) (mergeObj patch [("updatedAt", .vtime t1)]))) cid).find?
        (fun d => decide (getKey d "id" = some (.vstr (toString idN)))) = _
    rw [getMColl_setMColl_self, hupd]
    exact find?_id_append_last _ _ _ hfresh hd1id
  have hd1c : getKey (mergeObj (mergeObj data
      [("id", .vstr (toString idN)), ("createdAt", .vtime t0),
       ("updatedAt", .vtime t0)])
      (mergeObj patch [("updatedAt", .vtime t1)])) "createdAt"
      = some (.vtime t0) := by
    rw [getKey_mergeObj_of_none _ _ _ hsbc]
    exact hmc0
  have hd1u : getKey (mergeObj (mergeObj data
      [("id", .vstr (toString idN)), ("createdAt", .vtime t0),
       ("updatedAt", .vtime t0)])
      (mergeObj patch [("updatedAt", .vtime t1)])) "updatedAt"
      = some (.vtime t1) :=
    getKey_mergeObj_of_some _ _ _ _ hsbnd hsbu
  refine ⟨⟨_, hd0, hc0, hu0⟩, ?_, ⟨_, hm1, hmc0, hmu0⟩,
    ⟨_, hread, hread, hd1c, hd1u, hmono⟩⟩
  refine ⟨setDocIn (fsCreateDocument s cid data freshId t0).1 cid freshId
      (mergeObj (mergeObj data
          [("fid", .vstr freshId), ("createdAt", .vtime t0),
           ("updatedAt", .vtime t0)])
        (mergeObj (removeKey patch "fid") [("updatedAt", .vtime t1)])),
    mergeObj [("fid", Value.vstr freshId)]
      (mergeObj (mergeObj data
          [("fid", .vstr freshId), ("createdAt", .vtime t0),
           ("updatedAt", .vtime t0)])
        (mergeObj (removeKey patch "fid") [("updatedAt", .vtime t1)])),
    mergeObj (mergeObj data
        [("fid", .vstr freshId), ("createdAt", .vtime t0),
         ("updatedAt", .vtime t0)])
      (mergeObj (removeKey patch "fid") [("updatedAt", .vtime t1)]),
    ?_, ?_, ?_, ?_, hmono⟩
  · simp [dsUpdateDocument, hfid, hd0, getDocIn_setDocIn_self]
  · rw [getDocIn_setDocIn_self]
  · rw [getKey_mergeObj_of_none _ _ _ hbkeysc]
    exact hc0
  · exact getKey_mergeObj_of_some _ _ _ _ hbnd hbu

/-- Witness for C6: create at millisecond 5, update at millisecond 7, in
both backends. -/
theorem c6_witness :
    (∃ d0, getDocIn (fsCreateDocument [] "c" [] "d1" 5).1 "c" "d1" = some d0 ∧
        getKey d0 "createdAt" = some (.vtime 5) ∧
        getKey d0 "updatedAt" = some (.vtime 5)) ∧
    (∃ s2 r d1,
        dsUpdateDocument (fsCreateDocument [] "c" [] "d1" 5).1 "c" "d1"
            [("y", Value.vnum 2)] 7 = .ok (s2, r) ∧
        getDocIn s2 "c" "d1" = some d1 ∧
        getKey d1 "createdAt" = some (.vtime 5) ∧
        getKey d1 "updatedAt" = some (.vtime 7) ∧
        5 ≤ 7) ∧
    (∃ d0m, mgGetDocument (mgCreateDocument [] "c" [] 5 11).1 "c"
          (toString 11) = some d0m ∧
        getKey d0m "createdAt" = some (.vtime 5) ∧
        getKey d0m "updatedAt" = some (.vtime 5)) ∧
    (∃ d1m,
        mgGetDocument (mgUpdateDocument (mgCreateDocument [] "c" [] 5 11).1
            "c" (toString 11) [("y", Value.vnum 2)] 7).1 "c" (toString 11)
          = some d1m ∧
        (mgUpdateDocument (mgCreateDocument [] "c" [] 5 11).1 "c"
            (toString 11) [("y", Value.vnum 2)] 7).2 = some d1m ∧
        getKey d1m "createdAt" = some (.vtime 5) ∧
        getKey d1m "updatedAt" = some (.vtime 7) ∧
        5 ≤ 7) :=
  c6_amended_timestamp_monotonicity [] [] "c" [] [("y", Value.vnum 2)] "d1"
    11 5 7 (by decide) (by decide) (by decide) (by decide) (by decide)
    (by decide)

-- Committing a batch of fresh `set` operations appends the staged documents
-- to the collection in staging order.

theorem getColl_foldl_setDocIn (cid : String) (items : List FDoc) :
    ∀ s : Store,
      (∀ i ∈ items.map Prod.fst, ∀ p ∈ getColl s cid, p.1 ≠ i) →
      (items.map Prod.fst).Nodup →
      getColl (items.foldl (fun st it => setDocIn st cid it.1 it.2) s) cid
        = getColl s cid ++ items := by
  induction items with
  | nil => intro s _ _; simp
  | cons q rest ih =>
      intro s hfresh hnd
      simp only [List.map_cons, List.nodup_cons] at hnd
      have hq : ∀ p ∈ getColl s cid, p.1 ≠ q.1 :=
        fun p hp => hfresh q.1 (by simp) p hp
      have hset : getColl (setDocIn s cid q.1 q.2) cid = getColl s cid ++ [q] := by
        rw [getColl_setDocIn_self, upsertDoc_append_of_fresh _ _ _ hq]
      have hfresh2 : ∀ i ∈ rest.map Prod.fst,
          ∀ p ∈ getColl (setDocIn s cid q.1 q.2) cid, p.1 ≠ i := by
        intro i hi p hp
        rw [hset] at hp
        rcases List.mem_append.1 hp with hp | hp
        · exact hfresh i (by simp [hi]) p hp
        · have hpq : p = q := by simpa using hp
          subst hpq
          intro he
          exact hnd.1 (he ▸ hi)
      simp only [List.foldl_cons]
      rw [ih (setDocIn s cid q.1 q.2) hfresh2 hnd.2, hset]
      simp

theorem mgInsertMany_prefix_fail (rejects : Obj → Bool) (bad : Obj)
    (post : List Obj) (hbad : rejects bad = true) :
    ∀ pre coll : List Obj, (∀ x ∈ pre, rejects x = false) →
      mgInsertMany rejects coll (pre ++ bad :: post) = (coll ++ pre, false) := by
  intro pre
  induction pre with
  | nil => intro coll _; simp [mgInsertMany, hbad]
  | cons x rest ih =>
      intro coll hpre
      have hx : rejects x = false := hpre x (by simp)
      simp only [List.cons_append, mgInsertMany]
      rw [if_neg (by simp [hx])]
      have hrec := ih (coll ++ [x]) (fun y hy => hpre y (by simp [hy]))
      simpa using hrec

/-- C1 counterexample: in the MongoDB backend a two-item `batchCreate`
where the backend rejects the second item fails the call, yet the first
item remains visible in the collection — the batch is not atomic, so the
claim that zero of the N documents are visible after a rejected batch fails
on this backend. -/
theorem c1_counterexample :
    (∃ e, (mgBatchCreateDocuments
        (fun o => decide (getKey o "x" = some (Value.vnum 2)))
        [] "c" [[("x", Value.vnum 1)], [("x", Value.vnum 2)]] 5
        (fun i => i)).2 = .error e) ∧
    getMColl (mgBatchCreateDocuments
        (fun o => decide (getKey o "x" = some (Value.vnum 2)))
        [] "c" [[("x", Value.vnum 1)], [("x", Value.vnum 2)]] 5
        (fun i => i)).1 "c" ≠ [] := by
  exact ⟨⟨"insertMany rejected by backend", rfl⟩, by decide⟩

/-- C1 amended: batch create is atomic in the Firestore backend — when the
backend rejects any staged item the store is unchanged, and on success all
N staged documents become visible in input order — while in the MongoDB
backend `insertMany` inserts sequentially without rollback, so when the
backend rejects an item the call fails but every item before the first
rejected one remains visible. -/
theorem c1_amended_batch_atomicity (rejects : Obj → Bool) (s : Store)
    (ms : MStore) (cid : String) (documents : List Obj) (gen : Nat → String)
    (now : Nat) (documentsM pre post : List Obj) (bad : Obj)
    (tsNow : Nat) (idClock : Nat → Nat) :
    (∀ e, (fsBatchCreateDocuments rejects s cid documents gen now).2 = .error e →
      (fsBatchCreateDocuments rejects s cid documents gen now).1 = s) ∧
    (∀ res, (fsBatchCreateDocuments rejects s cid documents gen now).2 = .ok res →
      (∀ i ∈ (fsBatchDocs documents gen now).map Prod.fst,
          ∀ p ∈ getColl s cid, p.1 ≠ i) →
      ((fsBatchDocs documents gen now).map Prod.fst).Nodup →
      getColl (fsBatchCreateDocuments rejects s cid documents gen now).1 cid
          = getColl s cid ++ fsBatchDocs documents gen now ∧
        res = (fsBatchDocs documents gen now).map Prod.snd) ∧
    (mgBatchDocs documentsM tsNow idClock = pre ++ bad :: post →
      (∀ x ∈ pre, rejects x = false) → rejects bad = true →
      (∃ e, (mgBatchCreateDocuments rejects ms cid documentsM tsNow idClock).2
          = .error e) ∧
      getMColl (mgBatchCreateDocuments rejects ms cid documentsM tsNow
          idClock).1 cid
        = getMColl ms cid ++ pre) := by
  refine ⟨?_, ?_, ?_⟩
  · intro e he
    by_cases hany : (fsBatchDocs documents gen now).any (fun it => rejects it.2)
    · simp [fsBatchCreateDocuments, hany]
    · simp [fsBatchCreateDocuments, hany] at he
  · intro res hres hfresh hnd
    by_cases hany : (fsBatchDocs documents gen now).any (fun it => rejects it.2)
    · simp [fsBatchCreateDocuments, hany] at hres
    · refine ⟨?_, ?_⟩
      · have h1 : (fsBatchCreateDocuments rejects s cid documents gen now).1
            = (fsBatchDocs documents gen now).foldl
                (fun st it => setDocIn st cid it.1 it.2) s := by
          simp [fsBatchCreateDocuments, hany]
        rw [h1]
        exact getColl_foldl_setDocIn cid (fsBatchDocs documents gen now) s
          hfresh hnd
      · simp [fsBatchCreateDocuments, hany] at hres
        exact hres.symm
  · intro hsplit hpre hbad
    have hins : mgInsertMany rejects (getMColl ms cid)
        (mgBatchDocs documentsM tsNow idClock)
        = (getMColl ms cid ++ pre, false) := by
      rw [hsplit]
      exact mgInsertMany_prefix_fail rejects bad post hbad pre
        (getMColl ms cid) hpre
    constructor
    · exact ⟨"insertMany rejected by backend",
        by simp [mgBatchCreateDocuments, hins]⟩
    · simp [mgBatchCreateDocuments, hins, getMColl_setMColl_self]

/-- Witness for C1: a rejected Firestore batch leaves the store unchanged, a
clean Firestore batch appends both staged documents, and a rejected MongoDB
batch whose first built item is the rejected one fails with the collection
still holding its prior (empty) contents. -/
theorem c1_witness :
    (fsBatchCreateDocuments (fun o => decide (getKey o "x" = some (Value.vnum 2)))
        [("c", [])] "c" [[("x", Value.vnum 2)]] (fun _ => "g0") 5).1
      = [("c", [])] ∧
    getColl (fsBatchCreateDocuments
        (fun o => decide (getKey o "x" = some (Value.vnum 2)))
        [("c", [])] "c" [[("x", Value.vnum 1)]] (fun _ => "g0") 5).1 "c"
      = getColl [("c", [])] "c"
        ++ fsBatchDocs [[("x", Value.vnum 1)]] (fun _ => "g0") 5 ∧
    getMColl (mgBatchCreateDocuments
        (fun o => decide (getKey o "x" = some (Value.vnum 2)))
        [] "c" [[("x", Value.vnum 2)]] 5 (fun _ => 7)).1 "c"
      = getMColl [] "c" ++ [] := by
  refine ⟨?_, ?_, ?_⟩
  · exact (c1_amended_batch_atomicity
      (fun o => decide (getKey o "x" = some (Value.vnum 2))) [("c", [])] []
      "c" [[("x", Value.vnum 2)]] (fun _ => "g0") 5 [] [] [] [] 5 (fun _ => 7)).1
      "batch commit rejected by backend" rfl
  · have h := (c1_amended_batch_atomicity
      (fun o => decide (getKey o "x" = some (Value.vnum 2))) [("c", [])] []
      "c" [[("x", Value.vnum 1)]] (fun _ => "g0") 5 [] [] [] [] 5 (fun _ => 7)).2.1
      ((fsBatchDocs [[("x", Value.vnum 1)]] (fun _ => "g0") 5).map Prod.snd)
      rfl (by decide) (by decide)
    exact h.1
  · exact ((c1_amended_batch_atomicity
      (fun o => decide (getKey o "x" = some (Value.vnum 2))) [] []
      "c" [] (fun _ => "g0") 5 [[("x", Value.vnum 2)]] []
      [] (mergeObj [("x", Value.vnum 2)]
        [("id", Value.vstr (toString 7)), ("createdAt", Value.vtime 5),
         ("updatedAt", Value.vtime 5)]) 5 (fun _ => 7)).2.2
      rfl (by simp) rfl).2

-- Deletion lemmas for the cascade in `deleteCollection`.

theorem getColl_deleteDocIn_self (s : Store) (cid i : String) :
    getColl (deleteDocIn s cid i) cid
      = (getColl s cid).filter (fun p => decide (p.1 ≠ i)) := by
  simp [deleteDocIn, getColl_setColl_self]

theorem getColl_deleteDocIn_other (s : Store) (cid cid' i : String)
    (h : cid' ≠ cid) :
    getColl (deleteDocIn s cid i) cid' = getColl s cid' := by
  simp [deleteDocIn, getColl_setColl_other _ _ _ _ h]

theorem getDocIn_deleteDocIn_self (s : Store) (cid i : String) :
    getDocIn (deleteDocIn s cid i) cid i = none := by
  rw [getDocIn, getColl_deleteDocIn_self, assocGet_eq_none_iff]
  intro p hp
  simpa using (List.mem_filter.1 hp).2

theorem getColl_foldl_deleteDocIn (p : String) (l : List FDoc) :
    ∀ s : Store, (∀ d ∈ getColl s p, d.1 ∈ l.map Prod.fst) →
      getColl (l.foldl (fun st d => deleteDocIn st p d.1) s) p = [] := by
  induction l with
  | nil =>
      intro s hsub
      rw [List.eq_nil_iff_forall_not_mem]
      intro d hd
      simpa using hsub d hd
  | cons q rest ih =>
      intro s hsub
      simp only [List.foldl_cons]
      apply ih
      intro d hd
      rw [getColl_deleteDocIn_self] at hd
      have hmem := List.mem_filter.1 hd
      have hne : d.1 ≠ q.1 := by simpa using hmem.2
      have hin := hsub d hmem.1
      simp only [List.map_cons, List.mem_cons] at hin
      rcases hin with h | h
      · exact absurd h hne
      · exact h

/-- C4: `deleteCollection` fails with the not-found error when no catalog
definition with the given id exists; otherwise it commits one batch that
removes every document of the definition's data space together with the
definition record, so afterwards the definition is absent from the catalog
and a scan of the data space returns zero documents — also when the data
space was already empty. -/
theorem c4_delete_collection_cascades (s : Store) (collectionId : String)
    (defData : Obj) :
    (getDocIn s collectionsPath collectionId = none →
      fsDeleteCollection s collectionId
        = .error ("Collection " ++ collectionId ++ " not found")) ∧
    (getDocIn s collectionsPath collectionId = some defData →
      ∃ s', fsDeleteCollection s collectionId = .ok s' ∧
        getDocIn s' collectionsPath collectionId = none ∧
        getColl s' (getStrD defData "id") = []) := by
  constructor
  · intro hnone
    simp [fsDeleteCollection, hnone]
  · intro hsome
    have hs1 : getColl (if (getColl s (getStrD defData "id")).isEmpty then s
        else (getColl s (getStrD defData "id")).foldl
          (fun st d => deleteDocIn st (getStrD defData "id") d.1) s)
        (getStrD defData "id") = [] := by
      by_cases hemp : (getColl s (getStrD defData "id")).isEmpty
      · rw [if_pos hemp]
        exact List.isEmpty_iff.1 hemp
      · rw [if_neg hemp]
        exact getColl_foldl_deleteDocIn _ _ _
          (fun d hd => List.mem_map_of_mem Prod.fst hd)
    refine ⟨deleteDocIn
        (if (getColl s (getStrD defData "id")).isEmpty then s
         else (getColl s (getStrD defData "id")).foldl
           (fun st d => deleteDocIn st (getStrD defData "id") d.1) s)
        collectionsPath collectionId, ?_, ?_, ?_⟩
    · simp [fsDeleteCollection, hsome]
    · exact getDocIn_deleteDocIn_self _ _ _
    · by_cases heq : getStrD defData "id" = collectionsPath
      · rw [heq] at hs1 ⊢
        rw [getColl_deleteDocIn_self, hs1]
        rfl
      · rw [getColl_deleteDocIn_other _ _ _ _ heq]
        exact hs1

/-- Witness for C4: deleting a missing id fails with not-found; deleting an
existing definition with two documents in its data space empties both the
catalog entry and the data space. -/
theorem c4_witness :
    fsDeleteCollection
        [("collections", [("cfid", [("id", Value.vstr "widgets_ab")])]),
         ("widgets_ab", [("w1", []), ("w2", [])])] "missing"
      = .error ("Collection " ++ "missing" ++ " not found") ∧
    (∃ s', fsDeleteCollection
          [("collections", [("cfid", [("id", Value.vstr "widgets_ab")])]),
           ("widgets_ab", [("w1", []), ("w2", [])])] "cfid"
        = .ok s' ∧
      getDocIn s' collectionsPath "cfid" = none ∧
      getColl s' (getStrD [("id", Value.vstr "widgets_ab")] "id") = []) := by
  constructor
  · exact (c4_delete_collection_cascades
      [("collections", [("cfid", [("id", Value.vstr "widgets_ab")])]),
       ("widgets_ab", [("w1", []), ("w2", [])])] "missing" []).1 (by decide)
  · exact (c4_delete_collection_cascades
      [("collections", [("cfid", [("id", Value.vstr "widgets_ab")])]),
       ("widgets_ab", [("w1", []), ("w2", [])])] "cfid"
      [("id", Value.vstr "widgets_ab")]).2 (by decide)

/-- C3: collection creation is idempotent by normalized name — whenever the
catalog already holds a definition whose stored name equals the lowercased,
trimmed name of the requested definition, `createCollection` returns that
existing definition (adapted with its logical identity, backend id and the
normalized name), leaves the catalog state unchanged (so no duplicate is
created), and ignores the seed-data argument entirely. -/
theorem c3_create_collection_idempotent (s : Store) (collectionData : Obj)
    (mockData mockData2 : List Obj) (shortId freshFid : String)
    (mockGen : Nat → String) (now : Nat) (exDoc : FDoc) (rest : List FDoc)
    (hex : (getColl s collectionsPath).filter
        (fun p => decide (getKey p.2 "name"
          = some (.vstr (normNameOf collectionData)))) = exDoc :: rest) :
    (fsCreateCollection s collectionData mockData shortId freshFid mockGen
        now).1 = s ∧
    (fsCreateCollection s collectionData mockData shortId freshFid mockGen
        now).2
      = mergeObj exDoc.2
          [("id", jsOr (getKey exDoc.2 "id") (.vstr exDoc.1)),
           ("fid", .vstr exDoc.1),
           ("name", .vstr (normNameOf collectionData))] ∧
    getKey (fsCreateCollection s collectionData mockData shortId freshFid
        mockGen now).2 "id"
      = some (jsOr (getKey exDoc.2 "id") (.vstr exDoc.1)) ∧
    fsCreateCollection s collectionData mockData2 shortId freshFid mockGen now
      = fsCreateCollection s collectionData mockData shortId freshFid mockGen
          now := by
  have hred : ∀ md : List Obj,
      fsCreateCollection s collectionData md shortId freshFid mockGen now
        = (s, mergeObj exDoc.2
            [("id", jsOr (getKey exDoc.2 "id") (.vstr exDoc.1)),
             ("fid", .vstr exDoc.1),
             ("name", .vstr (normNameOf collectionData))]) := by
    intro md
    unfold fsCreateCollection
    rw [hex]
  refine ⟨by rw [hred], by rw [hred], ?_,
    by rw [hred mockData2, hred mockData]⟩
  rw [hred]
  exact getKey_merge3_first _ _ _ _ _ _ _ (by decide) (by decide)

/-- Witness for C3: a catalog holding `products` and a second create request
named `"  PRODUCTS "` (different casing and whitespace), with and without
seed data. -/
theorem c3_witness :
    (fsCreateCollection
        [("collections", [("cf1", [("name", Value.vstr "products"),
          ("id", Value.vstr "products_x1")])])]
        [("name", Value.vstr "  PRODUCTS ")] [[("seed", Value.vnum 1)]]
        "zz" "cf2" (fun _ => "m0") 9).1
      = [("collections", [("cf1", [("name", Value.vstr "products"),
          ("id", Value.vstr "products_x1")])])] ∧
    getKey (fsCreateCollection
        [("collections", [("cf1", [("name", Value.vstr "products"),
          ("id", Value.vstr "products_x1")])])]
        [("name", Value.vstr "  PRODUCTS ")] [[("seed", Value.vnum 1)]]
        "zz" "cf2" (fun _ => "m0") 9).2 "id"
      = some (jsOr (getKey [("name", Value.vstr "products"),
          ("id", Value.vstr "products_x1")] "id") (.vstr "cf1")) ∧
    fsCreateCollection
        [("collections", [("cf1", [("name", Value.vstr "products"),
          ("id", Value.vstr "products_x1")])])]
        [("name", Value.vstr "  PRODUCTS ")] []
        "zz" "cf2" (fun _ => "m0") 9
      = fsCreateCollection
          [("collections", [("cf1", [("name", Value.vstr "products"),
            ("id", Value.vstr "products_x1")])])]
          [("name", Value.vstr "  PRODUCTS ")] [[("seed", Value.vnum 1)]]
          "zz" "cf2" (fun _ => "m0") 9 := by
  have h := c3_create_collection_idempotent
    [("collections", [("cf1", [("name", Value.vstr "products"),
      ("id", Value.vstr "products_x1")])])]
    [("name", Value.vstr "  PRODUCTS ")] [[("seed", Value.vnum 1)]] []
    "zz" "cf2" (fun _ => "m0") 9
    ("cf1", [("name", Value.vstr "products"), ("id", Value.vstr "products_x1")])
    [] (by decide)
  exact ⟨h.1, h.2.2.1, h.2.2.2⟩

-- Cursor-skip lemmas for the offset stage.

theorem startAfterDoc_getLast (d : FDoc) :
    ∀ l : List FDoc, (l.map Prod.fst).Nodup → l.getLast? = some d →
      startAfterDoc l d.1 = [] := by
  intro l
  induction l with
  | nil => intro _ hlast; cases hlast
  | cons q rest ih =>
      intro hnd hlast
      cases rest with
      | nil =>
          have hdq : q = d := by simpa using hlast
          subst hdq
          simp [startAfterDoc]
      | cons r rest2 =>
          have hlast2 : (r :: rest2).getLast? = some d := by
            simpa [List.getLast?_cons_cons] using hlast
          simp only [List.map_cons, List.nodup_cons] at hnd
          obtain ⟨ys, hys⟩ := List.getLast?_eq_some_iff.1 hlast2
          have hdmem : d ∈ r :: rest2 := by rw [hys]; simp
          have hqne : q.1 ≠ d.1 := by
            intro he
            apply hnd.1
            rw [he]
            exact List.mem_map_of_mem Prod.fst hdmem
          simp only [startAfterDoc, if_neg hqne]
          exact ih (by simpa using hnd.2) hlast2

theorem nodup_fsSortedMatches (s : Store) (cid : String) (qp : QueryParams)
    (hnd : ((getColl s cid).map Prod.fst).Nodup) :
    ((fsSortedMatches s cid qp).map Prod.fst).Nodup := by
  have hfil : ((applyWhereFS qp.whereC (getColl s cid)).map Prod.fst).Nodup := by
    cases hw : qp.whereC with
    | none => simpa [applyWhereFS] using hnd
    | some cs =>
        simp only [applyWhereFS]
        exact ((List.filter_sublist _).map Prod.fst).nodup hnd
  show ((applyOrderFS qp.orderC (applyWhereFS qp.whereC (getColl s cid))).map
      Prod.fst).Nodup
  cases ho : qp.orderC with
  | none => simpa [applyOrderFS] using hfil
  | some obs =>
      simp only [applyOrderFS]
      exact ((List.mergeSort_perm (applyWhereFS qp.whereC (getColl s cid))
        (docLe obs)).map Prod.fst).nodup_iff.2 hfil

theorem fsLimitStage_nil (limitC : Option Nat) : fsLimitStage [] limitC = [] := by
  cases limitC with
  | none => rfl
  | some lim => by_cases h : lim ≠ 0 <;> simp [fsLimitStage, h]

theorem mgLimitStage_nil (limitC : Option Nat) : mgLimitStage [] limitC = [] := by
  cases limitC with
  | none => rfl
  | some lim => by_cases h : lim ≠ 0 <;> simp [mgLimitStage, h]

/-- C5 counterexample: with zero matching documents and a nonzero offset
(`offset = 1 >= total = 0`), the Firestore backend's offset page is empty,
its last row is `undefined`, and the call fails instead of succeeding with
an empty page as the claim states. -/
theorem c5_counterexample :
    (fsSortedMatches [] "c" (QueryParams.mk none none none (some 1))).length ≤ 1 ∧
    fsQueryDocuments [] "c" (QueryParams.mk none none none (some 1))
      = .error "Function startAfter() called with invalid data. Unsupported field value: undefined" :=
  ⟨by decide, rfl⟩

/-- C5 amended: for a query whose `limit` is absent or positive and whose
`offset` is at least the number of matching documents, the MongoDB backend
returns an empty page with `hasMore = false`; the Firestore backend does the
same provided the offset is zero or at least one document matches, but with
zero matches and a nonzero offset the cursor construction fails
(`startAfter` on the missing last row of the empty offset page). -/
theorem c5_offset_beyond_total (s : Store) (ms : MStore) (cid : String)
    (qp : QueryParams) (o : Nat)
    (hlim : qp.limitC = none ∨ ∃ lim, qp.limitC = some lim ∧ 0 < lim)
    (hoff : qp.offsetC = some o) :
    (((getColl s cid).map Prod.fst).Nodup →
      (fsSortedMatches s cid qp).length ≤ o →
      ((0 < (fsSortedMatches s cid qp).length ∨ o = 0 →
          fsQueryDocuments s cid qp
            = .ok ⟨[], (fsSortedMatches s cid qp).length, false⟩) ∧
        ((fsSortedMatches s cid qp).length = 0 → o ≠ 0 →
          fsQueryDocuments s cid qp
            = .error "Function startAfter() called with invalid data. Unsupported field value: undefined"))) ∧
    ((mgSortedMatches ms cid qp).length ≤ o →
      (mgQueryDocuments ms cid qp).data = [] ∧
      (mgQueryDocuments ms cid qp).hasMore = false) := by
  have hnotzero : ¬qp.limitC = some 0 := by
    rcases hlim with hl | ⟨lim, hl, hpos⟩
    · simp [hl]
    · rw [hl]
      simp
      omega
  constructor
  · intro hnd htot
    have hsnd : ((fsSortedMatches s cid qp).map Prod.fst).Nodup :=
      nodup_fsSortedMatches s cid qp hnd
    constructor
    · intro hcase
      have hoffres : fsOffsetStage (fsSortedMatches s cid qp) qp.offsetC
          = .ok [] := by
        rw [hoff]
        rcases hcase with hpos | hzero
        · have hone : o ≠ 0 := by omega
          have htake : (fsSortedMatches s cid qp).take o
              = fsSortedMatches s cid qp := List.take_of_length_le htot
          have hne : fsSortedMatches s cid qp ≠ [] := by
            intro hnil
            rw [hnil] at hpos
            simp at hpos
          obtain ⟨d, hd⟩ := Option.isSome_iff_exists.1
            (List.getLast?_isSome.2 hne)
          simp only [fsOffsetStage, if_pos hone]
          rw [htake, hd]
          show Except.ok (startAfterDoc (fsSortedMatches s cid qp) d.1)
              = Except.ok ([] : List FDoc)
          rw [startAfterDoc_getLast d _ hsnd hd]
        · subst hzero
          have hnil : fsSortedMatches s cid qp = [] :=
            List.length_eq_zero.1 (Nat.le_zero.1 htot)
          simp [fsOffsetStage, hnil]
      unfold fsQueryDocuments
      rw [hoffres]
      simp [fsLimitStage_nil, hnotzero]
    · intro hlen hone
      have hnil : fsSortedMatches s cid qp = [] := List.length_eq_zero.1 hlen
      have hoffres : fsOffsetStage (fsSortedMatches s cid qp) qp.offsetC
          = .error "Function startAfter() called with invalid data. Unsupported field value: undefined" := by
        rw [hoff]
        simp [fsOffsetStage, hone, hnil]
      unfold fsQueryDocuments
      rw [hoffres]
  · intro htotm
    have hdrop : mgOffsetStage (mgSortedMatches ms cid qp) qp.offsetC = [] := by
      rw [hoff]
      by_cases hone : o ≠ 0
      · simp only [mgOffsetStage, if_pos hone]
        exact List.drop_eq_nil_of_le htotm
      · push_neg at hone
        subst hone
        have hnil : mgSortedMatches ms cid qp = [] :=
          List.length_eq_zero.1 (Nat.le_zero.1 htotm)
        simp [mgOffsetStage, hnil]
    constructor
    · show mgLimitStage (mgOffsetStage (mgSortedMatches ms cid qp) qp.offsetC)
          qp.limitC = []
      rw [hdrop]
      exact mgLimitStage_nil _
    · show decide (qp.limitC
          = some (mgLimitStage (mgOffsetStage (mgSortedMatches ms cid qp)
              qp.offsetC) qp.limitC).length) = false
      rw [hdrop, mgLimitStage_nil]
      simp [hnotzero]

/-- Witness for C5: one matching document, `limit = 2`, `offset = 5` — both
backends return an empty page with `hasMore = false`. -/
theorem c5_witness :
    fsQueryDocuments [("c", [("d1", [("a", Value.vnum 1)])])] "c"
        (QueryParams.mk none none (some 2) (some 5))
      = .ok ⟨[], (fsSortedMatches [("c", [("d1", [("a", Value.vnum 1)])])] "c"
          (QueryParams.mk none none (some 2) (some 5))).length, false⟩ ∧
    (mgQueryDocuments [("c", [[("a", Value.vnum 1)]])] "c"
        (QueryParams.mk none none (some 2) (some 5))).data = [] ∧
    (mgQueryDocuments [("c", [[("a", Value.vnum 1)]])] "c"
        (QueryParams.mk none none (some 2) (some 5))).hasMore = false := by
  have h := c5_offset_beyond_total [("c", [("d1", [("a", Value.vnum 1)])])]
    [("c", [[("a", Value.vnum 1)]])] "c"
    (QueryParams.mk none none (some 2) (some 5)) 5
    (Or.inr ⟨2, rfl, by decide⟩) rfl
  refine ⟨(h.1 (by decide) (by decide)).1 (Or.inl (by decide)), ?_, ?_⟩
  · exact (h.2 (by decide)).1
  · exact (h.2 (by decide)).2

-- The JavaScript-`Map` deduplication keeps each document id once and
-- preserves the set of ids.

theorem nodup_keys_jsMapValues (l : List FDoc) :
    ∀ m : List FDoc, (m.map Prod.fst).Nodup →
      ((l.foldl (fun m2 d => upsertDoc m2 d.1 d.2) m).map Prod.fst).Nodup := by
  induction l with
  | nil => intro m hm; simpa using hm
  | cons q rest ih =>
      intro m hm
      simp only [List.foldl_cons]
      exact ih _ (nodup_keys_assocSet m q.1 q.2 hm)

theorem mem_keys_foldl_upsert (l : List FDoc) :
    ∀ (m : List FDoc) (j : String),
      j ∈ (l.foldl (fun m2 d => upsertDoc m2 d.1 d.2) m).map Prod.fst ↔
        j ∈ m.map Prod.fst ∨ j ∈ l.map Prod.fst := by
  induction l with
  | nil => intro m j; simp
  | cons q rest ih =>
      intro m j
      simp only [List.foldl_cons, List.map_cons, List.mem_cons]
      rw [ih]
      simp only [upsertDoc]
      rw [mem_keys_assocSet]
      tauto

theorem length_jsMapValues_eq_card (l : List FDoc) :
    (jsMapValues l).length = (l.map Prod.fst).toFinset.card := by
  have hnd : ((jsMapValues l).map Prod.fst).Nodup :=
    nodup_keys_jsMapValues l [] (by simp)
  have hset : ((jsMapValues l).map Prod.fst).toFinset
      = (l.map Prod.fst).toFinset := by
    ext j
    simp only [List.mem_toFinset]
    have h := mem_keys_foldl_upsert l [] j
    simpa [jsMapValues] using h
  have h1 : (jsMapValues l).length = ((jsMapValues l).map Prod.fst).length :=
    (List.length_map _ _).symm
  rw [h1, ← List.toFinset_card_of_nodup hnd, hset]

/-- C8: the merged result set of `searchDocuments` contains each document
identity at most once — also when a document matches the prefix range on
several of the requested fields — and the reported `total` equals the number
of distinct matching document identities; in the MongoDB backend the single
`$or` query returns each stored document once, so the same holds whenever
the stored identities are distinct. -/
theorem c8_search_deduplicates (s : Store) (ms : MStore) (cid text : String)
    (fields : List String) (page pageSize : Nat) :
    ((fsSearchMerged s cid text fields).map Prod.fst).Nodup ∧
    (fsSearchDocuments s cid text fields page pageSize).total
      = (((fields.map (fun f => (getColl s cid).filter
            (fun d => fieldPrefixMatches text f d.2))).flatten).map
          Prod.fst).toFinset.card ∧
    (((getMColl ms cid).map (fun d => getKey d "id")).Nodup →
      ((mgSearchDocuments ms cid text fields page pageSize).data.map
          (fun d => getKey d "id")).Nodup ∧
      (mgSearchDocuments ms cid text fields page pageSize).total
        = (((getMColl ms cid).filter (mgDocMatchesSearch text fields)).map
            (fun d => getKey d "id")).toFinset.card) := by
  refine ⟨?_, ?_, ?_⟩
  · exact nodup_keys_jsMapValues _ [] (by simp)
  · show (fsSearchMerged s cid text fields).length = _
    exact length_jsMapValues_eq_card _
  · intro hmnd
    have hsub : (((getMColl ms cid).filter (mgDocMatchesSearch text
        fields)).map (fun d => getKey d "id")).Sublist
          ((getMColl ms cid).map (fun d => getKey d "id")) :=
      (List.filter_sublist _).map _
    have hmatchnd := hsub.nodup hmnd
    constructor
    · have hdsub : (((((getMColl ms cid).filter (mgDocMatchesSearch text
          fields)).drop ((page - 1) * pageSize)).take pageSize).map
            (fun d => getKey d "id")).Sublist
          (((getMColl ms cid).filter (mgDocMatchesSearch text fields)).map
            (fun d => getKey d "id")) :=
        ((List.take_sublist _ _).trans (List.drop_sublist _ _)).map _
      exact hdsub.nodup hmatchnd
    · show ((getMColl ms cid).filter (mgDocMatchesSearch text fields)).length
          = _
      rw [List.toFinset_card_of_nodup hmatchnd, List.length_map]

/-- Witness for C8 at a one-document MongoDB store whose identity list is
duplicate-free. -/
theorem c8_witness :
    ((mgSearchDocuments
        [("c", [[("id", Value.vstr "m1"), ("t", Value.vstr "ab")]])]
        "c" "a" ["t"] 1 10).data.map (fun d => getKey d "id")).Nodup ∧
    (mgSearchDocuments
        [("c", [[("id", Value.vstr "m1"), ("t", Value.vstr "ab")]])]
        "c" "a" ["t"] 1 10).total
      = (((getMColl
            [("c", [[("id", Value.vstr "m1"), ("t", Value.vstr "ab")]])]
            "c").filter (mgDocMatchesSearch "a" ["t"])).map
          (fun d => getKey d "id")).toFinset.card :=
  (c8_search_deduplicates []
    [("c", [[("id", Value.vstr "m1"), ("t", Value.vstr "ab")]])]
    "c" "a" ["t"] 1 10).2.2 (by decide)
